import Mathlib

/-!
# Verification of the virt-who collect-batch-dispatch core

A shallow embedding of `virtwho/virt/virt.py`: the report model
(`Guest`, `Hypervisor`, the report variants and their content hashes),
host filtering (`HostGuestAssociationReport._filter` / `association`),
the destination workers (`DestinationThread._get_data` / `_send_data`,
`Satellite5DestinationThread._send_data`) and the interval loop's wait
logic (`IntervalThread._run` / `wait`).

Machine-level collaborators that the source delegates to the Python
standard library (SHA-256, canonical JSON, shell-glob and regex
matching) are modelled explicitly so that content hashes are real
strings computable by the kernel.
-/

namespace VirtWho

/-! ## Bytes, words and SHA-256

Modelled from the spec: "A content hash is defined as SHA-256 over the
canonical JSON (sorted-keys) of this serialized form" — the source
calls `hashlib.sha256(...).hexdigest()`; we implement SHA-256
(FIPS 180-4) over a list of byte values, producing the lowercase hex
digest, exactly as `hexdigest` does. -/

/-- 2^32, the word modulus of SHA-256. -/
def pow32 : Nat := 4294967296

/-- Right rotation of a 32-bit word. -/
def rotr (x n : Nat) : Nat := ((x >>> n) ||| (x <<< (32 - n))) % pow32

/-- SHA-256 big sigma-0. -/
def bSig0 (x : Nat) : Nat := (rotr x 2) ^^^ (rotr x 13) ^^^ (rotr x 22)

/-- SHA-256 big sigma-1. -/
def bSig1 (x : Nat) : Nat := (rotr x 6) ^^^ (rotr x 11) ^^^ (rotr x 25)

/-- SHA-256 small sigma-0. -/
def sSig0 (x : Nat) : Nat := (rotr x 7) ^^^ (rotr x 18) ^^^ (x >>> 3)

/-- SHA-256 small sigma-1. -/
def sSig1 (x : Nat) : Nat := (rotr x 17) ^^^ (rotr x 19) ^^^ (x >>> 10)

/-- SHA-256 choose function (¬x is taken inside the 32-bit word). -/
def chF (x y z : Nat) : Nat := (x &&& y) ^^^ ((x ^^^ 4294967295) &&& z)

/-- SHA-256 majority function. -/
def majF (x y z : Nat) : Nat := (x &&& y) ^^^ (x &&& z) ^^^ (y &&& z)

/-- The 64 SHA-256 round constants of FIPS 180-4 (the fractional
parts of the cube roots of the first 64 primes), in decimal. -/
def shaK : List Nat :=
  [1116352408, 1899447441, 3049323471, 3921009573, 961987163,
   1508970993, 2453635748, 2870763221, 3624381080, 310598401,
   607225278, 1426881987, 1925078388, 2162078206, 2614888103,
   3248222580, 3835390401, 4022224774, 264347078, 604807628,
   770255983, 1249150122, 1555081692, 1996064986, 2554220882,
   2821834349, 2952996808, 3210313671, 3336571891, 3584528711,
   113926993, 338241895, 666307205, 773529912, 1294757372,
   1396182291, 1695183700, 1986661051, 2177026350, 2456956037,
   2730485921, 2820302411, 3259730800, 3345764771, 3516065817,
   3600352804, 4094571909, 275423344, 430227734, 506948616,
   659060556, 883997877, 958139571, 1322822218, 1537002063,
   1747873779, 1955562222, 2024104815, 2227730452, 2361852424,
   2428436474, 2756734187, 3204031479, 3329325298]

/-- The SHA-256 initial hash value (FIPS 180-4), in decimal. -/
def shaH0 : List Nat :=
  [1779033703, 3144134277, 1013904242, 2773480762,
   1359893119, 2600822924, 528734635, 1541459225]

/-- Big-endian bytes (`n` of them) of a natural number. -/
def beBytes (n : Nat) (v : Nat) : List Nat :=
  (List.range n).map (fun i => (v >>> ((n - 1 - i) * 8)) % 256)

/-- SHA-256 padding: append `0x80`, zeros to 56 mod 64, then the
bit length as 8 big-endian bytes. -/
def shaPad (msg : List Nat) : List Nat :=
  let len := msg.length
  let zeros := (119 - (len % 64)) % 64
  msg ++ [0x80] ++ List.replicate zeros 0 ++ beBytes 8 (len * 8)

/-- Group bytes into 32-bit big-endian words. -/
def bytesToWords : List Nat → List Nat
  | a :: b :: c :: d :: rest => (((a * 256 + b) * 256 + c) * 256 + d) :: bytesToWords rest
  | _ => []

/-- Split a word list into 16-word blocks; `fuel` bounds the number of
blocks (the padded message is finite). -/
def chunk16 (fuel : Nat) (ws : List Nat) : List (List Nat) :=
  match fuel with
  | 0 => []
  | fuel + 1 =>
    match ws with
    | [] => []
    | _ => ws.take 16 :: chunk16 fuel (ws.drop 16)

/-- Extend the 16 message-schedule words to 64. -/
def shaSchedule (w : List Nat) : List Nat :=
  (List.range 48).foldl
    (fun ws i =>
      ws ++ [(ws.getD i 0 + sSig0 (ws.getD (i + 1) 0) + ws.getD (i + 9) 0 +
              sSig1 (ws.getD (i + 14) 0)) % pow32])
    w

/-- One SHA-256 round. -/
def shaRound (st : Nat × Nat × Nat × Nat × Nat × Nat × Nat × Nat) (kw : Nat × Nat) :
    Nat × Nat × Nat × Nat × Nat × Nat × Nat × Nat :=
  match st, kw with
  | (a, b, c, d, e, f, g, h), (k, w) =>
    let t1 := (h + bSig1 e + chF e f g + k + w) % pow32
    let t2 := (bSig0 a + majF a b c) % pow32
    ((t1 + t2) % pow32, a, b, c, (d + t1) % pow32, e, f, g)

/-- Compress one 16-word block into the running hash. -/
def shaCompress (hs : List Nat) (block : List Nat) : List Nat :=
  let ws := shaSchedule block
  let init : Nat × Nat × Nat × Nat × Nat × Nat × Nat × Nat :=
    (hs.getD 0 0, hs.getD 1 0, hs.getD 2 0, hs.getD 3 0,
     hs.getD 4 0, hs.getD 5 0, hs.getD 6 0, hs.getD 7 0)
  match (List.zip shaK ws).foldl shaRound init with
  | (a, b, c, d, e, f, g, h) =>
    [(hs.getD 0 0 + a) % pow32, (hs.getD 1 0 + b) % pow32, (hs.getD 2 0 + c) % pow32,
     (hs.getD 3 0 + d) % pow32, (hs.getD 4 0 + e) % pow32, (hs.getD 5 0 + f) % pow32,
     (hs.getD 6 0 + g) % pow32, (hs.getD 7 0 + h) % pow32]

/-- A lowercase hex digit. -/
def hexDigit (n : Nat) : Char :=
  if n < 10 then Char.ofNat (48 + n) else Char.ofNat (87 + n)

/-- Eight lowercase hex digits of a 32-bit word. -/
def wordHex (v : Nat) : List Char :=
  (List.range 8).map (fun i => hexDigit ((v >>> ((7 - i) * 4)) % 16))

/-- SHA-256 digest of a byte list as a lowercase hex string
(`hashlib.sha256(...).hexdigest()`). -/
def sha256Hex (msg : List Nat) : String :=
  let padded := shaPad msg
  let blocks := chunk16 (padded.length / 64 + 1) (bytesToWords padded)
  let final := blocks.foldl shaCompress shaH0
  ⟨final.foldr (fun w acc => wordHex w ++ acc) []⟩

/-- Bytes of a string. The hashed canonical-JSON strings are ASCII
(the JSON renderer escapes everything else), so the byte value of each
character is its code point. -/
def strBytes (s : String) : List Nat := s.data.map Char.toNat

/-- SHA-256 hex digest of a string. -/
def sha256OfString (s : String) : String := sha256Hex (strBytes s)

/-! ## Python-2 string ordering and stable sorting

The source sorts guest dictionaries by `guestId` and hypervisor
dictionaries by `hypervisorId` with Python's stable `sorted`.
Python 2 compares strings bytewise; on the code points of a Lean
string this is the lexicographic order below. Any stable sort by the
same key yields the same list as Python's Timsort, so we sort with
`List.insertionSort` (which is stable) over this order. -/

/-- Bytewise (code-point) `≤` on character lists, Python 2's string order. -/
def charsLe : List Char → List Char → Bool
  | [], _ => true
  | _ :: _, [] => false
  | a :: as, b :: bs =>
    if a.toNat < b.toNat then true
    else if a.toNat = b.toNat then charsLe as bs
    else false

/-- Bytewise `≤` on strings. -/
def strLeB (a b : String) : Bool := charsLe a.data b.data

/-- The sorting relation "key of `a` ≤ key of `b`". -/
def keyLe {α : Type} (key : α → String) (a b : α) : Prop :=
  strLeB (key a) (key b) = true

instance {α : Type} (key : α → String) : DecidableRel (keyLe key) :=
  fun a b => instDecidableEqBool (strLeB (key a) (key b)) true

/-- Stable sort by a string key: the model of
`sorted(xs, key=itemgetter(...))`. -/
def sortByKey {α : Type} (key : α → String) (l : List α) : List α :=
  l.insertionSort (keyLe key)

/-! ## Canonical JSON rendering

Modelled from the spec: the hashes are over "canonical sorted-keys
JSON", i.e. Python 2 `json.dumps(value, sort_keys=True)`: object
members sorted by key, item separator `", "`, key separator `": "`,
ASCII output with the standard string escapes. The dictionaries built
by `toDict` have a fixed key set, so each serialized form is written
out directly with its keys in sorted order. -/

/-- The `\uXXXX` escape of a code unit, with the lowercase hex digits
Python's `json.dumps` emits. -/
def uEscape (n : Nat) : List Char :=
  ['\\', 'u', hexDigit ((n >>> 12) % 16), hexDigit ((n >>> 8) % 16),
   hexDigit ((n >>> 4) % 16), hexDigit (n % 16)]

/-- JSON escape of one character, as Python 2 `json.dumps` with
`ensure_ascii=True` renders it. -/
def escapeChar (c : Char) : List Char :=
  if c = '"' then ['\\', '"']
  else if c = '\\' then ['\\', '\\']
  else if c.toNat = 8 then ['\\', 'b']
  else if c.toNat = 9 then ['\\', 't']
  else if c.toNat = 10 then ['\\', 'n']
  else if c.toNat = 12 then ['\\', 'f']
  else if c.toNat = 13 then ['\\', 'r']
  else if c.toNat < 32 then uEscape c.toNat
  else if c.toNat < 127 then [c]
  else if c.toNat < 65536 then uEscape c.toNat
  else uEscape (55296 + (c.toNat - 65536) / 1024) ++ uEscape (56320 + (c.toNat - 65536) % 1024)

/-- A JSON string literal: `"..."` with escapes. -/
def jstr (s : String) : String :=
  ⟨'"' :: (s.data.foldr (fun c acc => escapeChar c ++ acc) ['"'])⟩

/-- Join rendered items with the Python `json.dumps` item separator. -/
def joinComma : List String → String
  | [] => ""
  | [s] => s
  | s :: rest => s ++ ", " ++ joinComma rest

/-! ## The report model (`virt.py` lines 47–141, 189–287) -/

/-- `Guest.__init__`: `uuid`, the backend's `CONFIG_TYPE`
(`virtWhoType`) and the numeric `state`. -/
structure Guest where
  uuid : String
  virtWhoType : String
  state : Int
  deriving DecidableEq, Repr

/-- `STATE_RUNNING` -/
def STATE_RUNNING : Int := 1
/-- `STATE_PAUSED` -/
def STATE_PAUSED : Int := 3

/-- The `active` attribute of `Guest.toDict`:
`1 if self.state in (STATE_RUNNING, STATE_PAUSED) else 0`. -/
def Guest.active (g : Guest) : Int :=
  if g.state = STATE_RUNNING ∨ g.state = STATE_PAUSED then 1 else 0

/-- `json.dumps(g.toDict(), sort_keys=True)`: the guest dictionary
`{guestId, state, attributes: {virtWhoType, active}}` rendered with
its keys in sorted order
(`attributes < guestId < state`, `active < virtWhoType`). -/
def Guest.dictJson (g : Guest) : String :=
  "\x7b\"attributes\": \x7b\"active\": " ++ toString g.active ++
  ", \"virtWhoType\": " ++ jstr g.virtWhoType ++ "\x7d, \"guestId\": " ++
  jstr g.uuid ++ ", \"state\": " ++ toString g.state ++ "\x7d"

/-- A hypervisor fact value. The facts mapping in the source is a
flat Python dict; its values in this model are strings or integers. -/
inductive FactVal where
  | str (s : String)
  | num (n : Int)
  deriving DecidableEq, Repr

/-- Rendering of one fact value. -/
def FactVal.json : FactVal → String
  | .str s => jstr s
  | .num n => toString n

/-- `Hypervisor.__init__`: `hypervisorId`, `guestIds`, optional
`name`, optional `facts` (a dict, kept here as its entry list). -/
structure Hypervisor where
  hypervisorId : String
  guestIds : List Guest
  name : Option String
  facts : Option (List (String × FactVal))
  deriving DecidableEq, Repr

/-- The facts dict rendered with sorted keys. -/
def factsJson (fs : List (String × FactVal)) : String :=
  "\x7b" ++ joinComma ((sortByKey Prod.fst fs).map
    (fun kv => jstr kv.1 ++ ": " ++ kv.2.json)) ++ "\x7d"

/-- `json.dumps(h.toDict(), sort_keys=True)`: the hypervisor
dictionary `{hypervisorId: {hypervisorId}, name?, guestIds: [guest
dicts sorted by guestId], facts?}` with keys rendered in sorted order
(`facts < guestIds < hypervisorId < name`); `name` is omitted when
`None`, `facts` when `None` (`toDict` deletes / conditionally adds
them). The guest dictionaries are sorted by their `guestId` entry,
which is the guest's `uuid`. -/
def Hypervisor.dictJson (h : Hypervisor) : String :=
  (match h.facts with
   | some fs => "\x7b\"facts\": " ++ factsJson fs ++ ", \"guestIds\": ["
   | none => "\x7b\"guestIds\": [") ++
  joinComma ((sortByKey Guest.uuid h.guestIds).map Guest.dictJson) ++
  "], \"hypervisorId\": \x7b\"hypervisorId\": " ++ jstr h.hypervisorId ++ "\x7d" ++
  (match h.name with
   | some n => ", \"name\": " ++ jstr n
   | none => "") ++ "\x7d"

/-- `Hypervisor.getHash`: SHA-256 of the canonical sorted-keys JSON
of `toDict()`. -/
def Hypervisor.getHash (h : Hypervisor) : String :=
  sha256OfString h.dictJson

/-! ## Pattern matching for host filtering

`HostGuestAssociationReport._filter` tries each pattern first as a
shell glob (`fnmatch.fnmatch` on the lowercased host and pattern) and
then as a case-insensitive regex anchored as `"^" + pattern + "$"`;
an exception from the regex engine (an invalid pattern) is swallowed.

Modelled from the spec: the patterns are "each a list of shell globs
or anchored regexes". The stdlib matchers are modelled for the
constructs such patterns use: globs with `*`, `?` and literal
characters; regexes with literal characters, `\`-escaped punctuation,
`.`, and the `*`/`+`/`?` quantifiers. Regex constructs outside this
subset — including quantifiers with nothing to repeat, which is what
Python rejects in a glob-style pattern such as `^*-dev$` — are parse
errors, i.e. raising patterns. -/

/-- Glob matching with explicit fuel (the recursion consumes either
the pattern or the string each step, so `|pattern| + |string| + 1`
steps always suffice). -/
def globFuel : Nat → List Char → List Char → Bool
  | 0, _, _ => false
  | fuel + 1, p, s =>
    match p, s with
    | [], [] => true
    | [], _ :: _ => false
    | '*' :: ps, s =>
      globFuel fuel ps s ||
        (match s with
         | [] => false
         | _ :: s' => globFuel fuel ('*' :: ps) s')
    | '?' :: ps, _ :: s' => globFuel fuel ps s'
    | '?' :: _, [] => false
    | c :: ps, d :: s' => c = d && globFuel fuel ps s'
    | _ :: _, [] => false

/-- `fnmatch.fnmatch(name, pattern)` for the modelled glob subset.
The caller lowercases both arguments, so matching here is literal. -/
def fnmatchB (name pat : String) : Bool :=
  globFuel (pat.length + name.length + 1) pat.data name.data

/-- A regex atom of the modelled subset. -/
inductive RAtom where
  | lit (c : Char)
  | dot
  deriving DecidableEq, Repr

/-- A quantifier attached to an atom. -/
inductive RQuant where
  | one
  | star
  | plus
  | opt
  deriving DecidableEq, Repr

/-- One parsed regex item. -/
structure RItem where
  atom : RAtom
  quant : RQuant
  deriving DecidableEq, Repr

/-- Whether a character is one of the quantifiers `*`, `+`, `?`. -/
def isQuantChar (c : Char) : Bool := c = '*' || c = '+' || c = '?'

/-- The quantifier denoted by a quantifier character. -/
def quantOf (c : Char) : RQuant :=
  if c = '*' then .star else if c = '+' then .plus else .opt

/-- Regex metacharacters outside the modelled subset: their presence
makes the pattern a parse error in this model. -/
def isUnsupported (c : Char) : Bool :=
  c = '(' || c = ')' || c = '[' || c = ']' || c = '|' ||
  c = '^' || c = '$' || c = '\x7b' || c = '\x7d'

/-- Fuelled regex-body parser (each step consumes at least one
character, so `|input| + 1` steps suffice). -/
def parseFuel : Nat → List Char → Option (List RItem)
  | 0, _ => none
  | _ + 1, [] => some []
  | fuel + 1, c :: rest =>
    if isQuantChar c then none
    else if isUnsupported c then none
    else if c = '\\' then
      match rest with
      | [] => none
      | d :: rest' =>
        if d.isAlphanum then none   -- character-class escapes are outside the subset
        else
          match rest' with
          | q :: rest'' =>
            if isQuantChar q then
              (parseFuel fuel rest'').map (fun items => ⟨.lit d, quantOf q⟩ :: items)
            else (parseFuel fuel rest').map (fun items => ⟨.lit d, .one⟩ :: items)
          | [] => some [⟨.lit d, .one⟩]
    else
      let atom : RAtom := if c = '.' then .dot else .lit c
      match rest with
      | q :: rest' =>
        if isQuantChar q then
          (parseFuel fuel rest').map (fun items => ⟨atom, quantOf q⟩ :: items)
        else (parseFuel fuel rest).map (fun items => ⟨atom, .one⟩ :: items)
      | [] => some [⟨atom, .one⟩]

/-- Parse the regex body. `none` models `re.compile` raising — in
particular a leading `*`, `+` or `?` is "nothing to repeat", which is
exactly what Python raises on the glob-style patterns this code sees. -/
def parseRegex (cs : List Char) : Option (List RItem) :=
  parseFuel (cs.length + 1) cs

/-- Case-insensitive atom match (`re.IGNORECASE`); `.` does not match
a newline. -/
def atomMatch : RAtom → Char → Bool
  | .lit d, c => d.toLower = c.toLower
  | .dot, c => c ≠ '\n'

/-- Backtracking full match of a parsed regex, with fuel (each step
shrinks the item list, the string, or turns a `+` into a `*`, so
`2·|items| + |string| + 1` steps suffice). -/
def matchFuel : Nat → List RItem → List Char → Bool
  | 0, _, _ => false
  | fuel + 1, items, s =>
    match items, s with
    | [], [] => true
    | [], _ :: _ => false
    | it :: its, s =>
      match it.quant with
      | .one =>
        match s with
        | c :: s' => atomMatch it.atom c && matchFuel fuel its s'
        | [] => false
      | .opt =>
        matchFuel fuel its s ||
          (match s with
           | c :: s' => atomMatch it.atom c && matchFuel fuel its s'
           | [] => false)
      | .star =>
        matchFuel fuel its s ||
          (match s with
           | c :: s' => atomMatch it.atom c && matchFuel fuel (it :: its) s'
           | [] => false)
      | .plus =>
        match s with
        | c :: s' => atomMatch it.atom c && matchFuel fuel (⟨it.atom, .star⟩ :: its) s'
        | [] => false

/-- `re.match("^" + pat + "$", host, re.IGNORECASE)` as a truth value:
`none` models the construction raising (swallowed by `_filter`),
`some b` whether the anchored pattern matches the whole host. -/
def reMatch (pat host : String) : Option Bool :=
  (parseRegex pat.data).map
    (fun items => matchFuel (2 * items.length + host.length + 1) items host.data)

/-- Python's `str.lower`, character by character. -/
def strLower (s : String) : String := ⟨s.data.map Char.toLower⟩

/-- `HostGuestAssociationReport._filter(host, filterlist)`: for each
pattern, report a match if the lowercased glob matches or the anchored
case-insensitive regex matches; an exception from the regex branch is
swallowed (`except: pass`), which the `none` branch below models. -/
def filterB (host : String) (filterlist : List String) : Bool :=
  filterlist.any (fun i =>
    fnmatchB (strLower host) (strLower i) ||
      (match reMatch i host with
       | some b => b
       | none => false))

/-! ## `HostGuestAssociationReport` -/

/-- `HostGuestAssociationReport`: the raw association
(`_assoc['hypervisors']`) together with the `exclude_hosts` /
`filter_hosts` pattern lists (`None` when not configured). -/
structure HGAReport where
  assoc : List Hypervisor
  exclude_hosts : Option (List String)
  filter_hosts : Option (List String)
  deriving DecidableEq, Repr

/-- The filter-loop predicate: a host survives when it is not excluded
and, when `filter_hosts` is set, is included. -/
def hostKept (r : HGAReport) (h : Hypervisor) : Bool :=
  !(match r.exclude_hosts with
    | some ex => filterB h.hypervisorId ex
    | none => false) &&
  (match r.filter_hosts with
   | some fl => filterB h.hypervisorId fl
   | none => true)

/-- `HostGuestAssociationReport.association`: the raw hypervisor list
with excluded/unmatched hosts skipped, in order. -/
def HGAReport.association (r : HGAReport) : List Hypervisor :=
  r.assoc.filter (hostKept r)

/-- `HostGuestAssociationReport.serializedAssociation`:
`{'hypervisors': [effective hypervisor dicts sorted by hypervisorId]}`
(`sorted(..., key=itemgetter('hypervisorId'))` compares the singleton
inner dicts, which in Python 2 reduces to comparing the id strings). -/
def HGAReport.serializedAssociation (r : HGAReport) : String :=
  "\x7b\"hypervisors\": [" ++
  joinComma ((sortByKey Hypervisor.hypervisorId r.association).map Hypervisor.dictJson) ++
  "]\x7d"

/-- `HostGuestAssociationReport.hash`: SHA-256 of the canonical
sorted-keys JSON of the serialized effective association. -/
def HGAReport.hash (r : HGAReport) : String :=
  sha256OfString r.serializedAssociation

/-! ## `DomainListReport` and `ErrorReport` -/

/-- `DomainListReport`: a guest list and an optional hypervisor id. -/
structure DLReport where
  guests : List Guest
  hypervisor_id : Option String
  deriving DecidableEq, Repr

/-- Python 2 `str(x)` for the optional hypervisor id
(`str(None) = "None"`). -/
def strOfOptId : Option String → String
  | none => "None"
  | some s => s

/-- `DomainListReport.hash`: SHA-256 of the canonical JSON of the
guest dicts sorted by `guestId`, concatenated with `str(hypervisor_id)`. -/
def DLReport.hash (r : DLReport) : String :=
  sha256OfString
    ("[" ++ joinComma ((sortByKey Guest.uuid r.guests).map Guest.dictJson) ++ "]" ++
     strOfOptId r.hypervisor_id)

/-- `ErrorReport` carries no content; its `hash` property is the
inherited `hash(self)` — Python object identity — modelled as an
opaque integer attached to the object. -/
structure ErrReport where
  objHash : Int
  deriving DecidableEq, Repr

/-- A report held in the datastore: the tagged union the destination
workers dispatch on. -/
inductive Report where
  | domainList (r : DLReport)
  | hostGuest (r : HGAReport)
  | error (r : ErrReport)
  deriving DecidableEq, Repr

/-- A report hash value: the SHA-256 hex digests of content reports,
or the identity-based Python hash of an `ErrorReport`. -/
inductive HashVal where
  | sha (hex : String)
  | pyHash (n : Int)
  deriving DecidableEq, Repr

/-- `report.hash`, dispatching on the report type. -/
def Report.hash : Report → HashVal
  | .domainList r => .sha r.hash
  | .hostGuest r => .sha r.hash
  | .error r => .pyHash r.objHash

/-! ## Order lemmas for the stable sorts -/

theorem char_toNat_inj {a b : Char} (h : a.toNat = b.toNat) : a = b := by
  rw [← Char.ofNat_toNat a, ← Char.ofNat_toNat b, h]

theorem charsLe_cons (a b : Char) (as bs : List Char) :
    charsLe (a :: as) (b :: bs) =
      if a.toNat < b.toNat then true
      else if a.toNat = b.toNat then charsLe as bs
      else false := rfl

theorem charsLe_total : ∀ x y : List Char, charsLe x y = true ∨ charsLe y x = true
  | [], _ => Or.inl rfl
  | _ :: _, [] => Or.inr rfl
  | a :: as, b :: bs => by
    rcases Nat.lt_trichotomy a.toNat b.toNat with hlt | heq | hgt
    · left; rw [charsLe_cons, if_pos hlt]
    · rcases charsLe_total as bs with h | h
      · left; rw [charsLe_cons, if_neg (by omega), if_pos heq, h]
      · right; rw [charsLe_cons, if_neg (by omega), if_pos heq.symm, h]
    · right; rw [charsLe_cons, if_pos hgt]

theorem charsLe_trans :
    ∀ x y z : List Char, charsLe x y = true → charsLe y z = true → charsLe x z = true
  | [], _, _, _, _ => rfl
  | a :: as, [], _, hxy, _ => by simp [charsLe] at hxy
  | _ :: _, _ :: _, [], _, hyz => by simp [charsLe] at hyz
  | a :: as, b :: bs, c :: cs, hxy, hyz => by
    rw [charsLe_cons] at hxy hyz ⊢
    rcases Nat.lt_trichotomy a.toNat b.toNat with hab | hab | hab
    · rcases Nat.lt_trichotomy b.toNat c.toNat with hbc | hbc | hbc
      · rw [if_pos (by omega)]
      · rw [if_pos (by omega)]
      · rw [if_neg (by omega), if_neg (by omega)] at hyz
        exact absurd hyz (by simp)
    · rcases Nat.lt_trichotomy b.toNat c.toNat with hbc | hbc | hbc
      · rw [if_pos (by omega)]
      · rw [if_neg (by omega), if_pos (by omega)]
        rw [if_neg (by omega), if_pos hab] at hxy
        rw [if_neg (by omega), if_pos hbc] at hyz
        exact charsLe_trans as bs cs hxy hyz
      · rw [if_neg (by omega), if_neg (by omega)] at hyz
        exact absurd hyz (by simp)
    · rw [if_neg (by omega), if_neg (by omega)] at hxy
      exact absurd hxy (by simp)

theorem charsLe_antisymm :
    ∀ x y : List Char, charsLe x y = true → charsLe y x = true → x = y
  | [], [], _, _ => rfl
  | [], _ :: _, _, hyx => by simp [charsLe] at hyx
  | _ :: _, [], hxy, _ => by simp [charsLe] at hxy
  | a :: as, b :: bs, hxy, hyx => by
    rw [charsLe_cons] at hxy hyx
    rcases Nat.lt_trichotomy a.toNat b.toNat with hab | hab | hab
    · rw [if_neg (by omega), if_neg (by omega)] at hyx
      exact absurd hyx (by simp)
    · rw [if_neg (by omega), if_pos hab] at hxy
      rw [if_neg (by omega), if_pos hab.symm] at hyx
      rw [char_toNat_inj hab, charsLe_antisymm as bs hxy hyx]
    · rw [if_neg (by omega), if_neg (by omega)] at hxy
      exact absurd hxy (by simp)

theorem strLeB_total (a b : String) : strLeB a b = true ∨ strLeB b a = true :=
  charsLe_total a.data b.data

theorem strLeB_trans {a b c : String} (h₁ : strLeB a b = true) (h₂ : strLeB b c = true) :
    strLeB a c = true :=
  charsLe_trans a.data b.data c.data h₁ h₂

theorem strLeB_antisymm {a b : String} (h₁ : strLeB a b = true) (h₂ : strLeB b a = true) :
    a = b := by
  obtain ⟨da⟩ := a
  obtain ⟨db⟩ := b
  exact congrArg String.mk (charsLe_antisymm da db h₁ h₂)

instance {α : Type} (key : α → String) : IsTotal α (keyLe key) :=
  ⟨fun a b => strLeB_total (key a) (key b)⟩

instance {α : Type} (key : α → String) : IsTrans α (keyLe key) :=
  ⟨fun _ _ _ hab hbc => strLeB_trans hab hbc⟩

/-- Two sorted lists that are permutations of each other and have
pairwise-distinct keys are equal. This is why a stable sort by a
duplicate-free key is a canonical form. -/
theorem eq_of_perm_sorted_nodup_keys {α : Type} (key : α → String) :
    ∀ l₁ l₂ : List α, l₁.Perm l₂ → l₁.Sorted (keyLe key) → l₂.Sorted (keyLe key) →
      (l₁.map key).Nodup → l₁ = l₂
  | [], l₂, hp, _, _, _ => hp.nil_eq
  | a :: t₁, l₂, hp, hs₁, hs₂, hnd => by
    cases l₂ with
    | nil => exact absurd hp.symm (by simp)
    | cons b t₂ =>
      have hanod : key a ∉ t₁.map key := (List.nodup_cons.mp (by simpa using hnd)).1
      have hab : a = b := by
        by_contra hne
        have haT₂ : a ∈ t₂ := by
          rcases List.mem_cons.mp (hp.subset (List.mem_cons_self a t₁)) with h | h
          · exact absurd h hne
          · exact h
        have hbT₁ : b ∈ t₁ := by
          rcases List.mem_cons.mp (hp.symm.subset (List.mem_cons_self b t₂)) with h | h
          · exact absurd h.symm hne
          · exact h
        have h₁ : keyLe key a b := (List.sorted_cons.mp hs₁).1 b hbT₁
        have h₂ : keyLe key b a := (List.sorted_cons.mp hs₂).1 a haT₂
        exact hanod (strLeB_antisymm h₁ h₂ ▸ List.mem_map_of_mem key hbT₁)
      subst hab
      have htp : t₁.Perm t₂ := hp.cons_inv
      rw [eq_of_perm_sorted_nodup_keys key t₁ t₂ htp (List.sorted_cons.mp hs₁).2
        (List.sorted_cons.mp hs₂).2 (List.Nodup.of_cons (by simpa using hnd))]

/-- Stable sorting by a duplicate-free key is invariant under
permutation of the input. -/
theorem sortByKey_perm_congr {α : Type} (key : α → String) {l₁ l₂ : List α}
    (hp : l₁.Perm l₂) (hnd : (l₁.map key).Nodup) :
    sortByKey key l₁ = sortByKey key l₂ := by
  apply eq_of_perm_sorted_nodup_keys key
  · exact (List.perm_insertionSort _ l₁).trans (hp.trans (List.perm_insertionSort _ l₂).symm)
  · exact List.sorted_insertionSort _ l₁
  · exact List.sorted_insertionSort _ l₂
  · exact (((List.perm_insertionSort (keyLe key) l₁).map key).nodup_iff).mpr hnd

/-! ## Claim C1: hash invariance under permutation -/

/-- Two guests sharing a `guestId` but differing in `state`: Python's
stable sort keeps either input order, so the two serialized forms
differ. -/
def guestA1 : Guest := ⟨"a", "x", 1⟩

/-- The second guest with the duplicated `guestId`. -/
def guestA5 : Guest := ⟨"a", "x", 5⟩

/-- A hypervisor holding the duplicated-id guests in one order. -/
def hypDupFwd : Hypervisor := ⟨"h", [guestA1, guestA5], none, none⟩

/-- The same hypervisor content with the guest list permuted. -/
def hypDupRev : Hypervisor := ⟨"h", [guestA5, guestA1], none, none⟩

set_option maxRecDepth 1000000 in
/-- C1, counterexample: the content hash is NOT invariant under every
permutation of a hypervisor's guest list. With two guests sharing
`guestId` `"a"` (states 1 and 5), swapping the guest list changes
`Hypervisor.getHash`: the sort key `guestId` does not separate them,
and the stable sort preserves the two input orders. -/
theorem C1_counterexample :
    hypDupFwd.guestIds.Perm hypDupRev.guestIds ∧
      hypDupFwd.getHash ≠ hypDupRev.getHash := by
  constructor
  · decide
  · decide

/-- C1, amended: the content hash is invariant under permutation of a
hypervisor's guest list, of its fact-map entries, and of a report's
hypervisor list, provided the sort keys are duplicate-free: guest ids
pairwise distinct within the guest list, fact keys pairwise distinct
(automatic for a Python dict), and hypervisor ids pairwise distinct
within the report's raw association. -/
theorem C1_hash_perm_invariant :
    (∀ (h : Hypervisor) (gs : List Guest),
       h.guestIds.Perm gs → (h.guestIds.map Guest.uuid).Nodup →
       Hypervisor.getHash ⟨h.hypervisorId, gs, h.name, h.facts⟩ = h.getHash) ∧
    (∀ (hid : String) (gl : List Guest) (nm : Option String)
       (fs fs' : List (String × FactVal)),
       fs.Perm fs' → (fs.map Prod.fst).Nodup →
       Hypervisor.getHash ⟨hid, gl, nm, some fs'⟩ =
         Hypervisor.getHash ⟨hid, gl, nm, some fs⟩) ∧
    (∀ (r : HGAReport) (hs : List Hypervisor),
       r.assoc.Perm hs → (r.assoc.map Hypervisor.hypervisorId).Nodup →
       HGAReport.hash ⟨hs, r.exclude_hosts, r.filter_hosts⟩ = r.hash) := by
  refine ⟨fun h gs hperm hnd => ?_, fun hid gl nm fs fs' hperm hnd => ?_,
    fun r hs hperm hnd => ?_⟩
  · have hnd' : (gs.map Guest.uuid).Nodup := ((hperm.map Guest.uuid).nodup_iff).mp hnd
    have hs : sortByKey Guest.uuid gs = sortByKey Guest.uuid h.guestIds :=
      sortByKey_perm_congr Guest.uuid hperm.symm hnd'
    simp only [Hypervisor.getHash, Hypervisor.dictJson, hs]
  · have hs : sortByKey Prod.fst fs' = sortByKey Prod.fst fs :=
      sortByKey_perm_congr Prod.fst hperm.symm
        (((hperm.map Prod.fst).nodup_iff).mp hnd)
    simp only [Hypervisor.getHash, Hypervisor.dictJson, factsJson, hs]
  · have hkept : hostKept ⟨hs, r.exclude_hosts, r.filter_hosts⟩ = hostKept r := rfl
    have hassoc :
        (HGAReport.association ⟨hs, r.exclude_hosts, r.filter_hosts⟩).Perm
          r.association := by
      simpa [HGAReport.association, hkept] using (hperm.filter (hostKept r)).symm
    have hnd' : (r.association.map Hypervisor.hypervisorId).Nodup :=
      List.Nodup.sublist ((List.filter_sublist r.assoc).map Hypervisor.hypervisorId) hnd
    have hsort :
        sortByKey Hypervisor.hypervisorId
            (HGAReport.association ⟨hs, r.exclude_hosts, r.filter_hosts⟩) =
          sortByKey Hypervisor.hypervisorId r.association := by
      apply sortByKey_perm_congr Hypervisor.hypervisorId hassoc
      exact ((hassoc.map Hypervisor.hypervisorId).nodup_iff).mpr hnd'
    simp only [HGAReport.hash, HGAReport.serializedAssociation, hsort]

/-- A second guest with a distinct id, for the C1 witness. -/
def guestB5 : Guest := ⟨"b", "x", 5⟩

/-- A `h-prod` hypervisor with no guests. -/
def hypProd : Hypervisor := ⟨"h-prod", [], none, none⟩

/-- A `h-dev` hypervisor with no guests. -/
def hypDev : Hypervisor := ⟨"h-dev", [], none, none⟩

theorem C1_witness :
    (Hypervisor.getHash ⟨"h", [guestB5, guestA1], none, none⟩ =
       Hypervisor.getHash ⟨"h", [guestA1, guestB5], none, none⟩) ∧
    (Hypervisor.getHash ⟨"h", [], none, some [("k2", .num 3), ("k1", .str "v")]⟩ =
       Hypervisor.getHash ⟨"h", [], none, some [("k1", .str "v"), ("k2", .num 3)]⟩) ∧
    (HGAReport.hash ⟨[hypDev, hypProd], none, none⟩ =
       HGAReport.hash ⟨[hypProd, hypDev], none, none⟩) :=
  ⟨C1_hash_perm_invariant.1 ⟨"h", [guestA1, guestB5], none, none⟩ [guestB5, guestA1]
      (by decide) (by decide),
   C1_hash_perm_invariant.2.1 "h" [] none [("k1", .str "v"), ("k2", .num 3)]
      [("k2", .num 3), ("k1", .str "v")] (by decide) (by decide),
   C1_hash_perm_invariant.2.2 ⟨[hypProd, hypDev], none, none⟩ [hypDev, hypProd]
      (by decide) (by decide)⟩

/-! ## Claim C2: `DestinationThread._get_data` -/

/-- What `self.source.get(source_key, NotSetSentinel)` can return: the
sentinel (no entry), a stored `None`, or a report. -/
inductive StoreEntry where
  | absent
  | noneVal
  | rep (r : Report)
  deriving DecidableEq, Repr

/-- `DestinationThread._get_data`: for each source key take the
datastore entry; skip the sentinel and `None`; skip a report whose
hash equals the recorded last-sent hash for that key; collect the
rest keyed by source key. -/
def getData (sourceKeys : List String) (store : String → StoreEntry)
    (lastReport : String → Option HashVal) : List (String × Report) :=
  match sourceKeys with
  | [] => []
  | sk :: rest =>
    match store sk with
    | .absent => getData rest store lastReport
    | .noneVal => getData rest store lastReport
    | .rep r =>
      if some r.hash = lastReport sk then getData rest store lastReport
      else (sk, r) :: getData rest store lastReport

theorem lookup_cons_self {β : Type} (k : String) (v : β) (l : List (String × β)) :
    ((k, v) :: l).lookup k = some v := by
  simp [List.lookup]

theorem lookup_cons_ne {β : Type} (k k' : String) (v : β) (l : List (String × β))
    (h : k ≠ k') : ((k', v) :: l).lookup k = l.lookup k := by
  simp [List.lookup, beq_false_of_ne h]

/-- C2: `_get_data` returns a mapping that holds an entry for a source
key exactly when the datastore holds a report for that key (neither
the missing sentinel nor `None`) whose hash differs from the last-sent
hash recorded for the key; in particular a key whose report hash
equals its recorded last-sent hash is never included. -/
theorem C2_get_data_dedup (sourceKeys : List String) (store : String → StoreEntry)
    (lastReport : String → Option HashVal) (sk : String) (r : Report) :
    (getData sourceKeys store lastReport).lookup sk = some r ↔
      sk ∈ sourceKeys ∧ store sk = .rep r ∧ some r.hash ≠ lastReport sk := by
  induction sourceKeys with
  | nil => simp [getData]
  | cons k rest ih =>
    by_cases hk : sk = k
    · subst hk
      cases hst : store sk with
      | absent => simp [getData, hst, ih]
      | noneVal => simp [getData, hst, ih]
      | rep r' =>
        by_cases hh : some (Report.hash r') = lastReport sk
        · have hskip : getData (sk :: rest) store lastReport =
              getData rest store lastReport := by
            simp [getData, hst, hh]
          rw [hskip, ih, hst]
          constructor
          · rintro ⟨_, heq, hcond⟩
            injection heq with h2
            subst h2
            exact absurd hh hcond
          · rintro ⟨_, heq, hcond⟩
            injection heq with h2
            subst h2
            exact absurd hh hcond
        · have hkeep : getData (sk :: rest) store lastReport =
              (sk, r') :: getData rest store lastReport := by
            simp [getData, hst, hh]
          rw [hkeep, lookup_cons_self]
          constructor
          · intro h
            injection h with h2
            subst h2
            exact ⟨List.mem_cons_self _ _, rfl, hh⟩
          · rintro ⟨_, heq, _⟩
            injection heq with h2
            rw [h2]
    · have hmem : sk ∈ k :: rest ↔ sk ∈ rest := by simp [hk]
      cases hst : store k with
      | absent =>
        have : getData (k :: rest) store lastReport = getData rest store lastReport := by
          simp [getData, hst]
        rw [this, ih, hmem]
      | noneVal =>
        have : getData (k :: rest) store lastReport = getData rest store lastReport := by
          simp [getData, hst]
        rw [this, ih, hmem]
      | rep r' =>
        by_cases hh : some (Report.hash r') = lastReport k
        · have : getData (k :: rest) store lastReport = getData rest store lastReport := by
            simp [getData, hst, hh]
          rw [this, ih, hmem]
        · have : getData (k :: rest) store lastReport =
              (k, r') :: getData rest store lastReport := by
            simp [getData, hst, hh]
          rw [this, lookup_cons_ne _ _ _ _ hk, ih, hmem]

/-- A concrete store for the C2 witness. -/
def storeW : String → StoreEntry := fun sk =>
  if sk = "A" then .rep (.hostGuest ⟨[hypProd], none, none⟩) else .absent

theorem C2_witness :
    (getData ["A", "B"] storeW (fun _ => none)).lookup "A" =
        some (.hostGuest ⟨[hypProd], none, none⟩) ↔
      "A" ∈ ["A", "B"] ∧ storeW "A" = .rep (.hostGuest ⟨[hypProd], none, none⟩) ∧
        some (Report.hash (.hostGuest ⟨[hypProd], none, none⟩)) ≠ (fun _ => none) "A" :=
  C2_get_data_dedup ["A", "B"] storeW (fun _ => none) "A"
    (.hostGuest ⟨[hypProd], none, none⟩)

/-! ## Claims C7 and C10: host filtering -/

/-- One pattern matches a host, the way `_filter` tries it: as a shell
glob on the lowercased strings, or as an anchored case-insensitive
regex (which contributes nothing when it raises). -/
def patMatches (host p : String) : Prop :=
  fnmatchB (strLower host) (strLower p) = true ∨ reMatch p host = some true

/-- `_filter` reports a match exactly when some pattern of the list
matches as a glob or as an anchored regex. -/
theorem filterB_iff_patMatches (host : String) (pats : List String) :
    filterB host pats = true ↔ ∃ p ∈ pats, patMatches host p := by
  rw [filterB, List.any_eq_true]
  constructor
  · rintro ⟨p, hmem, hp⟩
    refine ⟨p, hmem, ?_⟩
    rcases Bool.or_eq_true_iff.mp hp with hg | hr
    · exact Or.inl hg
    · cases hre : reMatch p host with
      | none => rw [hre] at hr; exact absurd hr (by simp)
      | some b =>
        rw [hre] at hr
        cases b with
        | false => exact absurd hr (by simp)
        | true => exact Or.inr hre
  · rintro ⟨p, hmem, hg | hr⟩
    · exact ⟨p, hmem, Bool.or_eq_true_iff.mpr (Or.inl hg)⟩
    · refine ⟨p, hmem, Bool.or_eq_true_iff.mpr (Or.inr ?_)⟩
      rw [hr]

/-- The survive-condition of the `association` loop, stated at the
level of individual patterns. -/
theorem hostKept_iff (r : HGAReport) (h : Hypervisor) :
    hostKept r h = true ↔
      (∀ ex, r.exclude_hosts = some ex → ∀ p ∈ ex, ¬ patMatches h.hypervisorId p) ∧
      (∀ fl, r.filter_hosts = some fl → ∃ p ∈ fl, patMatches h.hypervisorId p) := by
  rw [hostKept, Bool.and_eq_true, Bool.not_eq_true']
  constructor
  · rintro ⟨hex, hfl⟩
    constructor
    · intro ex hsome p hmem hp
      rw [hsome] at hex
      have hex' : filterB h.hypervisorId ex = false := hex
      have htrue : filterB h.hypervisorId ex = true :=
        (filterB_iff_patMatches _ _).mpr ⟨p, hmem, hp⟩
      rw [htrue] at hex'
      exact Bool.noConfusion hex'
    · intro fl hsome
      rw [hsome] at hfl
      have hfl' : filterB h.hypervisorId fl = true := hfl
      exact (filterB_iff_patMatches _ _).mp hfl'
  · rintro ⟨hex, hfl⟩
    constructor
    · cases hx : r.exclude_hosts with
      | none => rfl
      | some ex =>
        show filterB h.hypervisorId ex = false
        cases hbx : filterB h.hypervisorId ex with
        | false => rfl
        | true =>
          obtain ⟨p, hmem, hp⟩ := (filterB_iff_patMatches _ _).mp hbx
          exact absurd hp (hex ex hx p hmem)
    · cases hx : r.filter_hosts with
      | none => rfl
      | some fl =>
        show filterB h.hypervisorId fl = true
        exact (filterB_iff_patMatches _ _).mpr (hfl fl hx)

set_option maxRecDepth 1000000 in
/-- C7: the effective association keeps exactly the hypervisors of the
raw association whose id matches no `exclude_hosts` pattern and, when
`filter_hosts` is set, matches some `filter_hosts` pattern — a pattern
matching either as a shell glob or as an anchored regex. On the
concrete example, `exclude_hosts=["*-dev"]` filters `[h-prod, h-dev]`
to `[h-prod]`, and the filtered report's hash differs from the
unfiltered one's. -/
theorem C7_association_filtering :
    (∀ (r : HGAReport) (h : Hypervisor),
       h ∈ r.association ↔
         h ∈ r.assoc ∧
         (∀ ex, r.exclude_hosts = some ex → ∀ p ∈ ex, ¬ patMatches h.hypervisorId p) ∧
         (∀ fl, r.filter_hosts = some fl → ∃ p ∈ fl, patMatches h.hypervisorId p)) ∧
    HGAReport.association ⟨[hypProd, hypDev], some ["*-dev"], none⟩ = [hypProd] ∧
    HGAReport.hash ⟨[hypProd, hypDev], some ["*-dev"], none⟩ ≠
      HGAReport.hash ⟨[hypProd, hypDev], none, none⟩ := by
  refine ⟨fun r h => ?_, by decide, by decide⟩
  rw [HGAReport.association, List.mem_filter, hostKept_iff]

theorem C7_witness :
    hypProd ∈ HGAReport.association ⟨[hypProd, hypDev], some ["*-dev"], none⟩ ↔
      hypProd ∈ ([hypProd, hypDev] : List Hypervisor) ∧
      (∀ ex, (some ["*-dev"] : Option (List String)) = some ex →
         ∀ p ∈ ex, ¬ patMatches hypProd.hypervisorId p) ∧
      (∀ fl, (none : Option (List String)) = some fl →
         ∃ p ∈ fl, patMatches hypProd.hypervisorId p) :=
  C7_association_filtering.1 ⟨[hypProd, hypDev], some ["*-dev"], none⟩ hypProd

/-- C10: `_filter` is total and exception-free: the `try`/`except`
around the regex branch swallows a raising pattern, so a pattern whose
regex form raises can match only through its shell-glob reading. The
first conjunct characterizes the boolean `_filter` computes for every
host and pattern list; the second shows that on a raising pattern
(`reMatch _ _ = none`) the result is exactly the glob match. -/
theorem C10_filter_total (host : String) (pats : List String) (p : String) :
    (filterB host pats = true ↔ ∃ q ∈ pats, patMatches host q) ∧
    ((∀ h', reMatch p h' = none) →
       filterB host [p] = fnmatchB (strLower host) (strLower p)) := by
  refine ⟨filterB_iff_patMatches host pats, fun hnone => ?_⟩
  rw [filterB, List.any_cons, List.any_nil, Bool.or_false, hnone host, Bool.or_false]

/-! ## `DestinationThread._send_data`

The manager (`self.dest`) is the external collaborator; its behaviour
during one `_send_data` call is an input of the model: a trace of
outcomes for the checkin retry loop, one for the async poll loop and
one per source for the `sendVirtGuests` retry loop. A too-short trace
(the loop would call the manager again) makes the model return `none`
(the Python loop would simply still be running). -/

/-- Report lifecycle states (`AbstractVirtReport.STATE_*`). -/
inductive RState where
  | created
  | processing
  | finished
  | failed
  | canceled
  deriving DecidableEq, Repr

/-- One outcome of a `hypervisorCheckIn` attempt as the checkin retry
loop sees it: a 429 (`ManagerThrottleError` with `retry_after`), a
normal return carrying the truthiness of the returned job handle and
the report state the manager left behind, or a
`ManagerError`/`ManagerFatalError`. -/
inductive CheckinOutcome where
  | throttle (retryAfter : Nat)
  | success (truthy : Bool) (newState : RState)
  | err
  deriving DecidableEq, Repr

/-- One outcome of a `check_report_state` poll. -/
inductive PollOutcome where
  | ok (newState : RState)
  | throttle (retryAfter : Nat)
  | err
  deriving DecidableEq, Repr

/-- One outcome of a `sendVirtGuests` attempt. -/
inductive DLOutcome where
  | success
  | throttle (retryAfter : Nat)
  | err
  deriving DecidableEq, Repr

/-- State left by the checkin retry loop. -/
structure CheckinPhase where
  resultTruthy : Bool
  state : RState
  erred : Bool
  modifier : Nat
  waits : List Nat
  calls : Nat
  deriving Repr

/-- The `while result is None` checkin loop (lines 545–564): try the
checkin; on a throttle set `interval_modifier = retry_after`, wait
that long at the loop foot and clear the modifier; a normal return or
a manager error breaks out (the error extends `sources_erred` at the
call site). -/
def runCheckin (state : RState) (modifier : Nat) :
    List CheckinOutcome → Option CheckinPhase
  | [] => none
  | .success t st :: _ => some ⟨t, st, false, modifier, [], 1⟩
  | .err :: _ => some ⟨false, state, true, modifier, [], 1⟩
  | .throttle n :: rest =>
    match runCheckin state 0 rest with
    | none => none
    | some r => some ⟨r.resultTruthy, r.state, r.erred, r.modifier, n :: r.waits, r.calls + 1⟩

/-- State left by the async poll loop. -/
structure PollPhase where
  state : RState
  erred : Bool
  modifier : Nat
  waits : List Nat
  calls : Nat
  deriving Repr

/-- Whether a state is terminal for the poll loop
(`STATE_CANCELED`, `STATE_FAILED`, `STATE_FINISHED`). -/
def terminalState (s : RState) : Bool :=
  s = .canceled || s = .failed || s = .finished

/-- The async poll loop (lines 565–589): while the report state is
non-terminal, compute the wait time (`interval_modifier` if set, else
`polling_interval`; the modifier is cleared either way), wait unless
this is the initial check, then call `check_report_state`: a normal
return updates the state, a throttle sets the modifier, a manager
error breaks (extending `sources_sent` at the call site). -/
def runPoll (initial : Bool) (state : RState) (modifier : Nat)
    (pollingInterval : Nat) : List PollOutcome → Option PollPhase
  | [] =>
    if terminalState state then some ⟨state, false, modifier, [], 0⟩ else none
  | o :: rest =>
    if terminalState state then some ⟨state, false, modifier, [], 0⟩
    else
      let wt := if modifier ≠ 0 then modifier else pollingInterval
      let waitsHere : List Nat := if initial then [] else [wt]
      match o with
      | .ok st =>
        match runPoll false st 0 pollingInterval rest with
        | none => none
        | some r => some ⟨r.state, r.erred, r.modifier, waitsHere ++ r.waits, r.calls + 1⟩
      | .throttle n =>
        match runPoll false state n pollingInterval rest with
        | none => none
        | some r => some ⟨r.state, r.erred, r.modifier, waitsHere ++ r.waits, r.calls + 1⟩
      | .err => some ⟨state, true, 0, waitsHere, 1⟩

/-- State left by the whole batch block (`if all_hypervisors:`). -/
structure BatchOut where
  lastReport : String → Option HashVal
  sent : List String
  erred : List String
  modifier : Nat
  checkinCalls : Nat
  finalState : Option RState
  ran : Bool
  checkinErred : Bool
  pollErred : Bool

/-- The batch checkin block (lines 536–601): skipped when no
hypervisors were gathered; otherwise run the checkin loop (a manager
error marks the batched sources erred under one-shot), poll only when
the job handle is truthy (a manager error there marks the batched
sources SENT under one-shot), and on `STATE_FINISHED` record each
batched source's report hash and mark it sent. -/
def runBatch (oneshot : Bool) (batchedKeys : List String)
    (allHypervisors : List Hypervisor) (data : List (String × Report))
    (lastReport : String → Option HashVal) (erred : List String)
    (modifier0 pollingInterval : Nat) (checkinTrace : List CheckinOutcome)
    (pollTrace : List PollOutcome) : Option BatchOut :=
  if allHypervisors.isEmpty then
    some ⟨lastReport, [], erred, modifier0, 0, none, false, false, false⟩
  else
    match runCheckin .created modifier0 checkinTrace with
    | none => none
    | some ck =>
      let erred1 := if ck.erred && oneshot then erred ++ batchedKeys else erred
      let pollRes : Option PollPhase :=
        if ck.resultTruthy then runPoll true ck.state ck.modifier pollingInterval pollTrace
        else some ⟨ck.state, false, ck.modifier, [], 0⟩
      match pollRes with
      | none => none
      | some pl =>
        let sent1 := if pl.erred && oneshot then batchedKeys else []
        if pl.state = .finished then
          some ⟨fun k => if batchedKeys.contains k then (data.lookup k).map Report.hash
                 else lastReport k,
            sent1 ++ batchedKeys, erred1, pl.modifier, ck.calls, some pl.state, true,
            ck.erred, pl.erred⟩
        else
          some ⟨lastReport, sent1, erred1, pl.modifier, ck.calls, some pl.state, true,
            ck.erred, pl.erred⟩

/-- The `sendVirtGuests` retry loop for one domain-list report:
retry on 429 only; returns whether the send succeeded (manager errors
give `false`, marking the source erred under one-shot at the call
site). -/
def runDLSend : List DLOutcome → Option (Bool × List Nat)
  | [] => none
  | .success :: _ => some (true, [])
  | .err :: _ => some (false, [])
  | .throttle n :: rest =>
    match runDLSend rest with
    | none => none
    | some r => some (r.1, n :: r.2)

/-- The per-source domain-list submissions (lines 602–624): skipped
entirely in print mode; on success record the report hash as last sent
and mark the source sent; on a manager error mark it erred under
one-shot. -/
def runDLs (oneshot printOnly : Bool) (data : List (String × Report))
    (dlTrace : String → List DLOutcome) :
    List String → (String → Option HashVal) → List String → List String →
      Option ((String → Option HashVal) × List String × List String)
  | [], last, sent, erred => some (last, sent, erred)
  | sk :: rest, last, sent, erred =>
    if printOnly then runDLs oneshot printOnly data dlTrace rest last sent erred
    else
      match runDLSend (dlTrace sk) with
      | none => none
      | some (true, _) =>
        runDLs oneshot printOnly data dlTrace rest
          (fun k => if k = sk then (data.lookup sk).map Report.hash else last k)
          (sent ++ [sk]) erred
      | some (false, _) =>
        runDLs oneshot printOnly data dlTrace rest last sent
          (if oneshot then erred ++ [sk] else erred)

/-- What `_send_data` receives: the `ErrorReport` instance the
one-shot wrapper can pass directly, or the dict from `_get_data`. -/
inductive SendInput where
  | errorReport
  | dict (entries : List (String × Report))

/-- Observable worker state after `_send_data` returns, plus the
bookkeeping of what the batch block did. -/
structure SendOut where
  lastReport : String → Option HashVal
  sourcesSent : List String
  sourcesErred : List String
  sourceKeys : List String
  stopped : Bool
  interval_modifier : Nat
  batchRan : Bool
  checkinCalls : Nat
  finalState : Option RState
  checkinErred : Bool
  pollErred : Bool

/-- The keys of the domain-list reports in the input dict. -/
def domainKeysOf (data : List (String × Report)) : List String :=
  data.filterMap (fun kv => match kv.2 with | .domainList _ => some kv.1 | _ => none)

/-- The keys of the host-guest-association reports
(`reports_batched`). -/
def batchedKeysOf (data : List (String × Report)) : List String :=
  data.filterMap (fun kv => match kv.2 with | .hostGuest _ => some kv.1 | _ => none)

/-- `all_hypervisors`: the effective associations of all host-guest
reports concatenated in iteration order. -/
def allHypervisorsOf (data : List (String × Report)) : List Hypervisor :=
  data.foldl (fun acc kv =>
    match kv.2 with | .hostGuest hg => acc ++ hg.association | _ => acc) []

/-- The keys of the error reports, recorded as erred under one-shot. -/
def errorKeysOf (data : List (String × Report)) : List String :=
  data.filterMap (fun kv => match kv.2 with | .error _ => some kv.1 | _ => none)

/-- `DestinationThread._send_data` (lines 495–641): early-return on an
empty input or stop on a raw `ErrorReport`; partition the dict by
report type; run the batch block; submit domain-list reports
per source; then under one-shot stop the worker when every configured
source key was sent or erred, and prune sent sources from the key
list. -/
def sendData (oneshot printOnly : Bool) (sourceKeys : List String)
    (lastReport : String → Option HashVal) (modifier0 pollingInterval : Nat)
    (input : SendInput) (checkinTrace : List CheckinOutcome)
    (pollTrace : List PollOutcome) (dlTrace : String → List DLOutcome) :
    Option SendOut :=
  match input with
  | .errorReport =>
    some ⟨lastReport, [], [], sourceKeys, true, modifier0, false, 0, none, false, false⟩
  | .dict data =>
    if data.isEmpty then
      some ⟨lastReport, [], [], sourceKeys, false, modifier0, false, 0, none, false, false⟩
    else
      let erred0 := if oneshot then errorKeysOf data else []
      match runBatch oneshot (batchedKeysOf data) (allHypervisorsOf data) data
          lastReport erred0 modifier0 pollingInterval checkinTrace pollTrace with
      | none => none
      | some b =>
        match runDLs oneshot printOnly data dlTrace (domainKeysOf data)
            b.lastReport b.sent b.erred with
        | none => none
        | some (last2, sent2, erred2) =>
          let stopped := oneshot &&
            sourceKeys.all (fun sk => sent2.contains sk || erred2.contains sk)
          let sourceKeys' :=
            if oneshot then sourceKeys.filter (fun sk => !sent2.contains sk)
            else sourceKeys
          some ⟨last2, sent2, erred2, sourceKeys', stopped, b.modifier, b.ran,
            b.checkinCalls, b.finalState, b.checkinErred, b.pollErred⟩

/-! ## Lemmas about the `_send_data` pieces -/

theorem mem_of_lookup {β : Type} :
    ∀ (l : List (String × β)) (k : String) (v : β),
      l.lookup k = some v → (k, v) ∈ l
  | [], _, _, h => by simp [List.lookup] at h
  | (k', v') :: rest, k, v, h => by
    by_cases hk : k = k'
    · subst hk
      rw [lookup_cons_self] at h
      injection h with h
      subst h
      exact List.mem_cons_self _ _
    · rw [lookup_cons_ne _ _ _ _ hk] at h
      exact List.mem_cons_of_mem _ (mem_of_lookup rest k v h)

theorem assoc_value_unique {β : Type} :
    ∀ l : List (String × β), (l.map Prod.fst).Nodup →
      ∀ k b c, (k, b) ∈ l → (k, c) ∈ l → b = c
  | [], _, k, b, c, hb, _ => by simp at hb
  | (k', v') :: rest, hnd, k, b, c, hb, hc => by
    have hmap : ((k', v') :: rest).map Prod.fst = k' :: rest.map Prod.fst := rfl
    rw [hmap] at hnd
    have hnd' := List.nodup_cons.mp hnd
    rcases List.mem_cons.mp hb with h₁ | h₁ <;> rcases List.mem_cons.mp hc with h₂ | h₂
    · injection h₁ with _ hv₁
      injection h₂ with _ hv₂
      rw [hv₁, hv₂]
    · injection h₁ with hk₁ hv₁
      subst hk₁
      exact absurd (List.mem_map_of_mem Prod.fst h₂) hnd'.1
    · injection h₂ with hk₂ hv₂
      subst hk₂
      exact absurd (List.mem_map_of_mem Prod.fst h₁) hnd'.1
    · exact assoc_value_unique rest hnd'.2 k b c h₁ h₂

theorem mem_batchedKeys_of_lookup (data : List (String × Report)) (sk : String)
    (hg : HGAReport) (h : data.lookup sk = some (.hostGuest hg)) :
    sk ∈ batchedKeysOf data :=
  List.mem_filterMap.mpr ⟨(sk, .hostGuest hg), mem_of_lookup data sk _ h, rfl⟩

theorem not_mem_domainKeys_of_lookup_hg (data : List (String × Report)) (sk : String)
    (hg : HGAReport) (hnd : (data.map Prod.fst).Nodup)
    (h : data.lookup sk = some (.hostGuest hg)) : sk ∉ domainKeysOf data := by
  intro hmem
  obtain ⟨⟨k, v⟩, hkv, heq⟩ := List.mem_filterMap.mp hmem
  cases v with
  | domainList dl =>
    injection heq with heq
    subst heq
    exact Report.noConfusion
      (assoc_value_unique data hnd _ _ _ hkv (mem_of_lookup data _ _ h))
  | hostGuest _ => exact Option.noConfusion heq
  | error _ => exact Option.noConfusion heq

theorem not_mem_errorKeys_of_lookup_hg (data : List (String × Report)) (sk : String)
    (hg : HGAReport) (hnd : (data.map Prod.fst).Nodup)
    (h : data.lookup sk = some (.hostGuest hg)) : sk ∉ errorKeysOf data := by
  intro hmem
  obtain ⟨⟨k, v⟩, hkv, heq⟩ := List.mem_filterMap.mp hmem
  cases v with
  | error e =>
    injection heq with heq
    subst heq
    exact Report.noConfusion
      (assoc_value_unique data hnd _ _ _ hkv (mem_of_lookup data _ _ h))
  | hostGuest _ => exact Option.noConfusion heq
  | domainList _ => exact Option.noConfusion heq

/-- The domain-list submission loop: keys outside its worklist keep
their last-sent hash; already-sent sources stay sent; a source can
only become erred if it was erred before or is on the worklist. -/
theorem runDLs_spec (oneshot printOnly : Bool) (data : List (String × Report))
    (dlTrace : String → List DLOutcome) :
    ∀ (keys : List String) (last : String → Option HashVal)
      (sent erred : List String) (last2 : String → Option HashVal)
      (sent2 erred2 : List String),
      runDLs oneshot printOnly data dlTrace keys last sent erred =
          some (last2, sent2, erred2) →
        (∀ k, k ∉ keys → last2 k = last k) ∧
        (∀ x ∈ sent, x ∈ sent2) ∧
        (∀ x ∈ erred2, x ∈ erred ∨ x ∈ keys)
  | [], last, sent, erred, last2, sent2, erred2, h => by
    rw [runDLs] at h
    injection h with h
    injection h with h1 h
    injection h with h2 h3
    subst h1; subst h2; subst h3
    exact ⟨fun _ _ => rfl, fun x hx => hx, fun x hx => Or.inl hx⟩
  | sk :: rest, last, sent, erred, last2, sent2, erred2, h => by
    rw [runDLs] at h
    split at h
    · have ih := runDLs_spec oneshot printOnly data dlTrace rest last sent erred
        last2 sent2 erred2 h
      refine ⟨fun k hk => ih.1 k (fun hmem => hk (List.mem_cons_of_mem _ hmem)),
        ih.2.1, fun x hx => ?_⟩
      rcases ih.2.2 x hx with h' | h'
      · exact Or.inl h'
      · exact Or.inr (List.mem_cons_of_mem _ h')
    · split at h
      · exact Option.noConfusion h
      · have ih := runDLs_spec oneshot printOnly data dlTrace rest
          (fun k => if k = sk then (data.lookup sk).map Report.hash else last k)
          (sent ++ [sk]) erred last2 sent2 erred2 h
        refine ⟨fun k hk => ?_, fun x hx =>
            ih.2.1 x (List.mem_append_left _ hx), fun x hx => ?_⟩
        · have hne : k ≠ sk := fun he => hk (he ▸ List.mem_cons_self _ _)
          rw [ih.1 k (fun hmem => hk (List.mem_cons_of_mem _ hmem))]
          simp [hne]
        · rcases ih.2.2 x hx with h' | h'
          · exact Or.inl h'
          · exact Or.inr (List.mem_cons_of_mem _ h')
      · have ih := runDLs_spec oneshot printOnly data dlTrace rest last sent
          (if oneshot then erred ++ [sk] else erred) last2 sent2 erred2 h
        refine ⟨fun k hk => ih.1 k (fun hmem => hk (List.mem_cons_of_mem _ hmem)),
          ih.2.1, fun x hx => ?_⟩
        rcases ih.2.2 x hx with h' | h'
        · cases oneshot with
          | true =>
            rcases (by simpa using h' : x ∈ erred ∨ x = sk) with h'' | h''
            · exact Or.inl h''
            · exact Or.inr (h'' ▸ List.mem_cons_self _ _)
          | false => exact Or.inl (by simpa using h')
        · exact Or.inr (List.mem_cons_of_mem _ h')

/-- A poll loop that broke on a manager error left a non-terminal
report state. -/
theorem runPoll_erred_state :
    ∀ (initial : Bool) (state : RState) (modifier pollingInterval : Nat)
      (trace : List PollOutcome) (pl : PollPhase),
      runPoll initial state modifier pollingInterval trace = some pl →
      pl.erred = true → terminalState pl.state = false
  | initial, state, modifier, pi, [], pl, h, he => by
    rw [runPoll] at h
    split at h
    · injection h with h
      subst h
      exact Bool.noConfusion he
    · exact Option.noConfusion h
  | initial, state, modifier, pi, o :: rest, pl, h, he => by
    rw [runPoll] at h
    split at h
    · injection h with h
      subst h
      exact Bool.noConfusion he
    next hterm =>
      cases o with
      | ok st =>
        dsimp only at h
        split at h
        · exact Option.noConfusion h
        next r hr =>
          injection h with h
          subst h
          exact runPoll_erred_state false st 0 pi rest r hr he
      | throttle n =>
        dsimp only at h
        split at h
        · exact Option.noConfusion h
        next r hr =>
          injection h with h
          subst h
          exact runPoll_erred_state false state n pi rest r hr he
      | err =>
        dsimp only at h
        injection h with h
        subst h
        simpa using hterm

/-- A checkin loop that broke on a manager error has no job handle
(`result` is still `None`, hence falsy). -/
theorem runCheckin_erred_truthy :
    ∀ (state : RState) (modifier : Nat) (trace : List CheckinOutcome)
      (ck : CheckinPhase), runCheckin state modifier trace = some ck →
      ck.erred = true → ck.resultTruthy = false
  | state, modifier, [], ck, h, _ => Option.noConfusion h
  | state, modifier, .success t st :: rest, ck, h, he => by
    rw [runCheckin] at h
    injection h with h
    subst h
    exact Bool.noConfusion he
  | state, modifier, .err :: rest, ck, h, _ => by
    rw [runCheckin] at h
    injection h with h
    subst h
    rfl
  | state, modifier, .throttle n :: rest, ck, h, he => by
    rw [runCheckin] at h
    split at h
    · exact Option.noConfusion h
    next r hr =>
      injection h with h
      subst h
      exact runCheckin_erred_truthy state 0 rest r hr he

/-- Everything the later claims need about the batch block: on
`STATE_FINISHED` the batched hashes are recorded and the batched
sources marked sent; on any other outcome the last-sent map is
untouched; sources become erred only from the incoming erred list or
the batched list; a poll-loop manager error leaves a non-terminal
state, marks the batched sources sent under one-shot, and adds
nothing to the erred list; and with no gathered hypervisors the block
is a no-op. -/
theorem runBatch_spec (oneshot : Bool) (batchedKeys : List String)
    (allHyp : List Hypervisor) (data : List (String × Report))
    (lastReport : String → Option HashVal) (erred : List String)
    (m0 pi : Nat) (ct : List CheckinOutcome) (pt : List PollOutcome)
    (b : BatchOut)
    (hb : runBatch oneshot batchedKeys allHyp data lastReport erred m0 pi ct pt =
      some b) :
    (b.finalState = some .finished →
       (∀ k, b.lastReport k =
          if batchedKeys.contains k then (data.lookup k).map Report.hash
          else lastReport k) ∧
       ∀ k ∈ batchedKeys, k ∈ b.sent) ∧
    (b.finalState ≠ some .finished → ∀ k, b.lastReport k = lastReport k) ∧
    (∀ k ∈ b.erred, k ∈ erred ∨ k ∈ batchedKeys) ∧
    (b.pollErred = true →
       b.finalState ≠ some .finished ∧
       (oneshot = true → ∀ k ∈ batchedKeys, k ∈ b.sent) ∧
       ∀ k ∈ b.erred, k ∈ erred) ∧
    (allHyp = [] →
       b.lastReport = lastReport ∧ b.sent = [] ∧ b.erred = erred ∧
       b.checkinCalls = 0 ∧ b.ran = false ∧ b.modifier = m0 ∧
       b.finalState = none) := by
  rw [runBatch] at hb
  split at hb
  · injection hb with hb
    subst hb
    exact ⟨fun h => Option.noConfusion h, fun _ _ => rfl, fun k hk => Or.inl hk,
      fun h => Bool.noConfusion h,
      fun _ => ⟨rfl, rfl, rfl, rfl, rfl, rfl, rfl⟩⟩
  next hempty =>
    have hallne : allHyp ≠ [] := fun h => hempty (by simp [h])
    split at hb
    · exact Option.noConfusion hb
    next ck hck =>
      dsimp only at hb
      have herr1 : ∀ k ∈ (if ck.erred && oneshot then erred ++ batchedKeys else erred),
          k ∈ erred ∨ k ∈ batchedKeys := by
        split
        · intro k hk
          exact List.mem_append.mp hk
        · intro k hk
          exact Or.inl hk
      by_cases hrt : ck.resultTruthy = true
      · rw [if_pos hrt] at hb
        have hckerr : ck.erred = false := by
          cases hce : ck.erred with
          | false => rfl
          | true =>
            rw [runCheckin_erred_truthy _ _ _ _ hck hce] at hrt
            exact Bool.noConfusion hrt
        split at hb
        · exact Option.noConfusion hb
        next pl hpl =>
          have herr1' : (if ck.erred && oneshot then erred ++ batchedKeys else erred)
              = erred := by
            rw [hckerr, Bool.false_and, if_neg Bool.false_ne_true]
          split at hb
          next hfin =>
            injection hb with hb
            subst hb
            refine ⟨fun _ => ⟨fun k => rfl, fun k hk => List.mem_append_right _ hk⟩,
              fun hne => absurd (congrArg some hfin) hne, herr1, fun hpe => ?_,
              fun h => absurd h hallne⟩
            have := runPoll_erred_state _ _ _ _ _ _ hpl hpe
            rw [hfin] at this
            exact Bool.noConfusion (show (true : Bool) = false from this)
          next hfin =>
            injection hb with hb
            subst hb
            refine ⟨fun h => absurd (Option.some.inj h) hfin, fun _ k => rfl, herr1,
              fun hpe => ?_, fun h => absurd h hallne⟩
            refine ⟨fun h => hfin (Option.some.inj h), fun hone k hk => ?_, ?_⟩
            · have hpe' : pl.erred = true := hpe
              show k ∈ (if pl.erred && oneshot then batchedKeys else [])
              rw [hpe', hone, Bool.true_and, if_pos rfl]
              exact hk
            · intro k hk
              rw [herr1'] at hk
              exact hk
      · rw [if_neg hrt] at hb
        dsimp only at hb
        split at hb
        next hfin =>
          injection hb with hb
          subst hb
          refine ⟨fun _ => ⟨fun k => rfl, fun k hk => List.mem_append_right _ hk⟩,
            fun hne => absurd (congrArg some hfin) hne, herr1,
            fun hpe => Bool.noConfusion hpe, fun h => absurd h hallne⟩
        next hfin =>
          injection hb with hb
          subst hb
          exact ⟨fun h => absurd (Option.some.inj h) hfin, fun _ k => rfl, herr1,
            fun hpe => Bool.noConfusion hpe, fun h => absurd h hallne⟩

/-! ## Claim C3: last-sent hashes advance exactly on `STATE_FINISHED` -/

/-- C3: for a batched source key (one whose report in the input dict
is a `HostGuestAssociationReport`), if the batch report's state after
the checkin/poll phase is `STATE_FINISHED` then its
`last_report_for_source` entry becomes the hash of the report observed
this cycle and the source is marked sent; for any other outcome of the
phase — `FAILED`, `CANCELED`, a still-pending state, or a checkin
abandoned on a manager error (the batch never left `CREATED`) — the
entry is left unchanged. -/
theorem C3_last_report_iff_finished (oneshot printOnly : Bool)
    (sourceKeys : List String) (lastReport : String → Option HashVal)
    (modifier0 pollingInterval : Nat) (data : List (String × Report))
    (checkinTrace : List CheckinOutcome) (pollTrace : List PollOutcome)
    (dlTrace : String → List DLOutcome) (out : SendOut) (sk : String)
    (hg : HGAReport)
    (hrun : sendData oneshot printOnly sourceKeys lastReport modifier0
        pollingInterval (.dict data) checkinTrace pollTrace dlTrace = some out)
    (hnd : (data.map Prod.fst).Nodup)
    (hsk : data.lookup sk = some (.hostGuest hg)) :
    (out.finalState = some .finished →
       out.lastReport sk = some (Report.hash (.hostGuest hg)) ∧
       sk ∈ out.sourcesSent) ∧
    (out.finalState ≠ some .finished → out.lastReport sk = lastReport sk) := by
  have hne : ¬(data.isEmpty = true) := by
    cases data with
    | nil => simp [List.lookup] at hsk
    | cons a l => simp
  rw [sendData, if_neg hne] at hrun
  dsimp only at hrun
  split at hrun
  · exact Option.noConfusion hrun
  next b hbatch =>
    split at hrun
    · exact Option.noConfusion hrun
    next last2 sent2 erred2 hdl =>
      injection hrun with hrun
      subst hrun
      have hbk : sk ∈ batchedKeysOf data := mem_batchedKeys_of_lookup data sk hg hsk
      have hdk : sk ∉ domainKeysOf data :=
        not_mem_domainKeys_of_lookup_hg data sk hg hnd hsk
      have hbs := runBatch_spec _ _ _ _ _ _ _ _ _ _ _ hbatch
      have hds := runDLs_spec _ _ _ _ _ _ _ _ _ _ _ hdl
      constructor
      · intro hfin
        have hfin' : b.finalState = some .finished := hfin
        obtain ⟨hlast, hsent⟩ := hbs.1 hfin'
        constructor
        · show last2 sk = _
          rw [hds.1 sk hdk, hlast sk, if_pos (List.elem_eq_true_of_mem hbk), hsk]
          rfl
        · exact hds.2.1 sk (hsent sk hbk)
      · intro hnfin
        have hnfin' : b.finalState ≠ some .finished := hnfin
        show last2 sk = lastReport sk
        rw [hds.1 sk hdk, hbs.2.1 hnfin' sk]

theorem C3_witness :
    ∃ out, sendData false false ["A"] (fun _ => none) 0 0
        (.dict [("A", .hostGuest ⟨[hypProd], none, none⟩)])
        [.success true .created] [.ok .finished] (fun _ => []) = some out ∧
      ((out.finalState = some .finished →
          out.lastReport "A" =
            some (Report.hash (.hostGuest ⟨[hypProd], none, none⟩)) ∧
          "A" ∈ out.sourcesSent) ∧
       (out.finalState ≠ some .finished →
          out.lastReport "A" = (fun _ : String => (none : Option HashVal)) "A")) :=
  ⟨_, rfl, C3_last_report_iff_finished false false ["A"] (fun _ => none) 0 0
      [("A", .hostGuest ⟨[hypProd], none, none⟩)] [.success true .created]
      [.ok .finished] (fun _ => []) _ "A" ⟨[hypProd], none, none⟩ rfl (by decide) rfl⟩

/-! ## Claim C4: a manager error in the poll loop -/

/-- C4, counterexample: a `ManagerError`/`ManagerFatalError` from
`check_report_state` in one-shot mode marks the batched source SENT,
not erred — `sources_sent.extend(reports_batched)` on line 587 —
unlike the checkin-phase handler, which extends `sources_erred`. With
one batched source `A`, a successful checkin and an erring first poll,
the worker ends with `sources_sent = [A]` and `sources_erred = []`. -/
theorem C4_counterexample :
    (sendData true false ["A"] (fun _ => none) 0 5
        (.dict [("A", .hostGuest ⟨[hypProd], none, none⟩)])
        [.success true .created] [.err] (fun _ => [])).map
        (fun out => (out.sourcesSent, out.sourcesErred, out.pollErred)) =
      some (["A"], [], true) := by
  rfl

/-- C4, amended: when `check_report_state` raises a non-throttle
manager error while the worker is in one-shot mode, every batched
source key is marked SENT (and hence pruned from future cycles), not
erred; the batch is abandoned with its last-sent hashes unchanged, so
— unlike a checkin-phase manager error, which marks the batched
sources erred — the same content is not re-sent next cycle. -/
theorem C4_poll_error_marks_sent (oneshot printOnly : Bool)
    (sourceKeys : List String) (lastReport : String → Option HashVal)
    (modifier0 pollingInterval : Nat) (data : List (String × Report))
    (checkinTrace : List CheckinOutcome) (pollTrace : List PollOutcome)
    (dlTrace : String → List DLOutcome) (out : SendOut) (sk : String)
    (hg : HGAReport)
    (hrun : sendData oneshot printOnly sourceKeys lastReport modifier0
        pollingInterval (.dict data) checkinTrace pollTrace dlTrace = some out)
    (hnd : (data.map Prod.fst).Nodup)
    (hsk : data.lookup sk = some (.hostGuest hg))
    (hone : oneshot = true) (hpe : out.pollErred = true) :
    sk ∈ out.sourcesSent ∧ sk ∉ out.sourcesErred ∧
      out.lastReport sk = lastReport sk := by
  have hne : ¬(data.isEmpty = true) := by
    cases data with
    | nil => simp [List.lookup] at hsk
    | cons a l => simp
  rw [sendData, if_neg hne] at hrun
  dsimp only at hrun
  split at hrun
  · exact Option.noConfusion hrun
  next b hbatch =>
    split at hrun
    · exact Option.noConfusion hrun
    next last2 sent2 erred2 hdl =>
      injection hrun with hrun
      subst hrun
      have hbk : sk ∈ batchedKeysOf data := mem_batchedKeys_of_lookup data sk hg hsk
      have hdk : sk ∉ domainKeysOf data :=
        not_mem_domainKeys_of_lookup_hg data sk hg hnd hsk
      have hek : sk ∉ errorKeysOf data :=
        not_mem_errorKeys_of_lookup_hg data sk hg hnd hsk
      have hbs := runBatch_spec _ _ _ _ _ _ _ _ _ _ _ hbatch
      have hds := runDLs_spec _ _ _ _ _ _ _ _ _ _ _ hdl
      have hpe' : b.pollErred = true := hpe
      obtain ⟨hnfin, hsent, herr⟩ := hbs.2.2.2.1 hpe'
      refine ⟨hds.2.1 sk (hsent hone sk hbk), ?_, ?_⟩
      · intro hmem
        rcases hds.2.2 sk hmem with h' | h'
        · have := herr sk h'
          rw [hone] at this
          simp only [if_pos rfl] at this
          exact hek this
        · exact hdk h'
      · show last2 sk = lastReport sk
        rw [hds.1 sk hdk, hbs.2.1 hnfin sk]

theorem C4_witness :
    ∃ out, sendData true false ["A"] (fun _ => none) 0 5
        (.dict [("A", .hostGuest ⟨[hypProd], none, none⟩)])
        [.success true .created] [.err] (fun _ => []) = some out ∧
      ("A" ∈ out.sourcesSent ∧ "A" ∉ out.sourcesErred ∧
        out.lastReport "A" = (fun _ : String => (none : Option HashVal)) "A") :=
  ⟨_, rfl, C4_poll_error_marks_sent true false ["A"] (fun _ => none) 0 5
      [("A", .hostGuest ⟨[hypProd], none, none⟩)] [.success true .created]
      [.err] (fun _ => []) _ "A" ⟨[hypProd], none, none⟩ rfl (by decide) rfl rfl rfl⟩

/-! ## Claim C9: empty effective associations send nothing -/

theorem allHypervisorsOf_eq_nil_aux (data : List (String × Report))
    (hall : ∀ kv ∈ data,
      (∃ hg, kv.2 = Report.hostGuest hg ∧ hg.association = []) ∨
      (∃ e, kv.2 = Report.error e)) :
    ∀ acc : List Hypervisor,
      data.foldl (fun acc kv =>
        match kv.2 with | .hostGuest hg => acc ++ hg.association | _ => acc) acc =
        acc := by
  induction data with
  | nil => intro acc; rfl
  | cons kv rest ih =>
    intro acc
    have hstep :
        (match kv.2 with
         | Report.hostGuest hg => acc ++ hg.association
         | _ => acc) = acc := by
      rcases hall kv (List.mem_cons_self _ _) with ⟨hg, hhg, hassoc⟩ | ⟨e, he⟩
      · rw [hhg]
        show acc ++ hg.association = acc
        rw [hassoc, List.append_nil]
      · rw [he]
    rw [List.foldl_cons, hstep]
    exact ih (fun kv' hkv' => hall kv' (List.mem_cons_of_mem _ hkv')) acc

/-- C9: when every report in the input dict is a
`HostGuestAssociationReport` with an empty effective association (and
there are no domain-list reports), `_send_data` makes no
`hypervisorCheckIn` call, leaves every `last_report_for_source` entry
unchanged, marks no such source sent or erred, keeps the source-key
list intact, and can only have stopped the worker on account of
error-report sources (so with no error reports and a nonempty key
list it does not stop). -/
theorem C9_empty_associations_noop (oneshot printOnly : Bool)
    (sourceKeys : List String) (lastReport : String → Option HashVal)
    (modifier0 pollingInterval : Nat) (data : List (String × Report))
    (checkinTrace : List CheckinOutcome) (pollTrace : List PollOutcome)
    (dlTrace : String → List DLOutcome) (out : SendOut)
    (hrun : sendData oneshot printOnly sourceKeys lastReport modifier0
        pollingInterval (.dict data) checkinTrace pollTrace dlTrace = some out)
    (hnd : (data.map Prod.fst).Nodup)
    (hall : ∀ kv ∈ data,
      (∃ hg, kv.2 = Report.hostGuest hg ∧ hg.association = []) ∨
      (∃ e, kv.2 = Report.error e)) :
    out.checkinCalls = 0 ∧
    (∀ k, out.lastReport k = lastReport k) ∧
    (∀ sk hg, data.lookup sk = some (.hostGuest hg) →
       sk ∉ out.sourcesSent ∧ sk ∉ out.sourcesErred) ∧
    out.sourceKeys = sourceKeys ∧
    (out.stopped = true → ∀ sk ∈ sourceKeys, sk ∈ errorKeysOf data) := by
  have hallhyp : allHypervisorsOf data = [] :=
    allHypervisorsOf_eq_nil_aux data hall []
  have hdkeys : domainKeysOf data = [] := by
    refine List.filterMap_eq_nil_iff.mpr (fun kv hkv => ?_)
    rcases hall kv hkv with ⟨hg, hhg, _⟩ | ⟨e, he⟩
    · rw [hhg]
    · rw [he]
  by_cases hemp : data.isEmpty = true
  · rw [sendData, if_pos hemp] at hrun
    injection hrun with hrun
    subst hrun
    refine ⟨rfl, fun _ => rfl, fun sk hg hsk => ⟨by simp, by simp⟩, rfl,
      fun hstop => Bool.noConfusion hstop⟩
  · rw [sendData, if_neg hemp] at hrun
    dsimp only at hrun
    split at hrun
    · exact Option.noConfusion hrun
    next b hbatch =>
      split at hrun
      · exact Option.noConfusion hrun
      next last2 sent2 erred2 hdl =>
        injection hrun with hrun
        subst hrun
        have hbs := runBatch_spec _ _ _ _ _ _ _ _ _ _ _ hbatch
        obtain ⟨hblast, hbsent, hberred, hbcalls, hbran, hbmod, hbfin⟩ :=
          hbs.2.2.2.2 hallhyp
        rw [hdkeys] at hdl
        rw [runDLs] at hdl
        injection hdl with hdl
        injection hdl with h1 hdl
        injection hdl with h2 h3
        subst h1; subst h2; subst h3
        rw [hblast, hbsent, hberred]
        refine ⟨hbcalls, fun k => rfl, fun sk hg hsk => ?_, ?_, ?_⟩
        · have hek : sk ∉ errorKeysOf data :=
            not_mem_errorKeys_of_lookup_hg data sk hg hnd hsk
          refine ⟨by simp, fun hmem => ?_⟩
          rcases hone : oneshot with _ | _
          · rw [hone] at hmem
            simp at hmem
          · rw [hone] at hmem
            simp only [if_pos rfl] at hmem
            exact hek hmem
        · show (if oneshot then sourceKeys.filter _ else sourceKeys) = sourceKeys
          split
          · refine List.filter_eq_self.mpr (fun a _ => ?_)
            simp
          · rfl
        · intro hstop sk hsk
          have hstop' : (oneshot &&
              sourceKeys.all (fun k => List.contains ([] : List String) k ||
                (if oneshot then errorKeysOf data else []).contains k)) = true := hstop
          rcases Bool.and_eq_true_iff.mp hstop' with ⟨hone, hall'⟩
          have := (List.all_eq_true.mp hall') sk hsk
          rw [hone] at this
          simp only [if_pos rfl] at this
          rcases Bool.or_eq_true_iff.mp this with h' | h'
          · simp at h'
          · exact List.mem_of_elem_eq_true h'

theorem C9_witness :
    ∃ out, sendData true false ["A"] (fun _ => none) 0 5
        (.dict [("A", .hostGuest ⟨[], none, none⟩)])
        [] [] (fun _ => []) = some out ∧
      (out.checkinCalls = 0 ∧
       (∀ k, out.lastReport k = (fun _ : String => (none : Option HashVal)) k) ∧
       (∀ sk hg, [("A", Report.hostGuest ⟨[], none, none⟩)].lookup sk =
           some (.hostGuest hg) → sk ∉ out.sourcesSent ∧ sk ∉ out.sourcesErred) ∧
       out.sourceKeys = ["A"] ∧
       (out.stopped = true → ∀ sk ∈ ["A"],
          sk ∈ errorKeysOf [("A", Report.hostGuest ⟨[], none, none⟩)])) :=
  ⟨_, rfl, C9_empty_associations_noop true false ["A"] (fun _ => none) 0 5
      [("A", .hostGuest ⟨[], none, none⟩)] [] [] (fun _ => []) _ rfl (by decide)
      (fun kv hkv => by
        rcases List.mem_singleton.mp hkv with rfl
        exact Or.inl ⟨⟨[], none, none⟩, rfl, rfl⟩)⟩

/-! ## `Satellite5DestinationThread._send_data`

The Satellite-5 worker submits each `HostGuestAssociationReport`
separately (no batching, no polling). Its checkin loop catches only
`ManagerThrottleError` and `ManagerFatalError`; a plain `ManagerError`
propagates out of `_send_data`. The loop body contains NO `wait`
call: a throttle stores `retry_after` into `interval_modifier` (which
nothing in this class ever reads) and retries at once. -/

/-- One outcome of a Satellite-5 `hypervisorCheckIn` attempt. -/
inductive S5Outcome where
  | throttle (retryAfter : Nat)
  | success
  | fatal
  | raiseErr
  deriving DecidableEq, Repr

/-- How the Satellite-5 per-source checkin loop ended. -/
inductive S5LoopEnd where
  | sent
  | erred
  | raised
  deriving DecidableEq, Repr

/-- The `while result is None` loop (lines 680–699): success breaks
(the caller records hash and sent), a throttle sets
`interval_modifier = e.retry_after` and the loop immediately retries —
no wait of any kind — `ManagerFatalError` breaks with the source
erred, and `ManagerError` is not caught. Returns the loop end, the
final `interval_modifier` and the number of checkin calls. -/
def runS5Checkin (modifier : Nat) : List S5Outcome → Option (S5LoopEnd × Nat × Nat)
  | [] => none
  | .success :: _ => some (.sent, modifier, 1)
  | .fatal :: _ => some (.erred, modifier, 1)
  | .raiseErr :: _ => some (.raised, modifier, 1)
  | .throttle n :: rest =>
    match runS5Checkin n rest with
    | none => none
    | some (e, m, c) => some (e, m, c + 1)

/-- Intermediate result of walking the report dict. -/
inductive S5Step where
  | diverge
  | raised (lastReport : String → Option HashVal) (modifier : Nat)
  | done (lastReport : String → Option HashVal) (sent erred warned : List String)
      (modifier : Nat) (calls : Nat)

/-- The `for source_key, report in data_to_send.iteritems()` body
(lines 663–709): a `DomainListReport` is warned about and marked
erred; a `HostGuestAssociationReport` goes through the checkin loop
(success records `report.hash` as last sent and marks the source
sent); an `ErrorReport` is marked SENT under one-shot. -/
def runS5Entries (oneshot : Bool) (s5Trace : String → List S5Outcome) :
    List (String × Report) → (String → Option HashVal) → List String →
      List String → List String → Nat → Nat → S5Step
  | [], last, sent, erred, warned, m, calls => .done last sent erred warned m calls
  | (sk, .domainList _) :: rest, last, sent, erred, warned, m, calls =>
    runS5Entries oneshot s5Trace rest last sent (erred ++ [sk]) (warned ++ [sk])
      m calls
  | (sk, .hostGuest hg) :: rest, last, sent, erred, warned, m, calls =>
    (match runS5Checkin m (s5Trace sk) with
     | none => .diverge
     | some (.raised, m', _) => .raised last m'
     | some (.sent, m', c) =>
       runS5Entries oneshot s5Trace rest
         (fun k => if k = sk then some (.sha hg.hash) else last k)
         (sent ++ [sk]) erred warned m' (calls + c)
     | some (.erred, m', c) =>
       runS5Entries oneshot s5Trace rest last sent (erred ++ [sk]) warned m'
         (calls + c))
  | (sk, .error _) :: rest, last, sent, erred, warned, m, calls =>
    runS5Entries oneshot s5Trace rest last
      (if oneshot then sent ++ [sk] else sent) erred warned m calls

/-- Observable worker state after the Satellite-5 `_send_data`.
`waits` records every `wait(...)` call the method performs — the
method contains none, so the field is always empty. -/
structure S5Out where
  lastReport : String → Option HashVal
  sourcesSent : List String
  sourcesErred : List String
  sourceKeys : List String
  stopped : Bool
  interval_modifier : Nat
  waits : List Nat
  checkinCalls : Nat
  warned : List String

/-- Result of the Satellite-5 `_send_data`: a trace too short for its
loops, an uncaught `ManagerError`, or a normal return. -/
inductive S5Result where
  | diverge
  | raised (lastReport : String → Option HashVal) (modifier : Nat)
  | ok (o : S5Out)

/-- `Satellite5DestinationThread._send_data` (lines 646–726): the same
early returns as the general worker, then the per-entry handling;
finally stop when every configured source key is in `sources_sent`
(erred sources do NOT count here) and prune sent sources under
one-shot. -/
def s5SendData (oneshot : Bool) (sourceKeys : List String)
    (lastReport : String → Option HashVal) (modifier0 : Nat)
    (input : SendInput) (s5Trace : String → List S5Outcome) : S5Result :=
  match input with
  | .errorReport => .ok ⟨lastReport, [], [], sourceKeys, true, modifier0, [], 0, []⟩
  | .dict data =>
    if data.isEmpty then
      .ok ⟨lastReport, [], [], sourceKeys, false, modifier0, [], 0, []⟩
    else
      match runS5Entries oneshot s5Trace data lastReport [] [] [] modifier0 0 with
      | .diverge => .diverge
      | .raised last m => .raised last m
      | .done last2 sent erred warned m calls =>
        .ok ⟨last2, sent, erred,
          (if oneshot then sourceKeys.filter (fun sk => !sent.contains sk)
           else sourceKeys),
          oneshot && sourceKeys.all (fun sk => sent.contains sk),
          m, [], calls, warned⟩

/-- Where members of `sources_sent` can come from, and that erred and
warned sources only accumulate. -/
theorem runS5Entries_spec (oneshot : Bool) (s5Trace : String → List S5Outcome) :
    ∀ (entries : List (String × Report)) (last : String → Option HashVal)
      (sent erred warned : List String) (m calls : Nat)
      (last2 : String → Option HashVal) (sent2 erred2 warned2 : List String)
      (m2 calls2 : Nat),
      runS5Entries oneshot s5Trace entries last sent erred warned m calls =
          .done last2 sent2 erred2 warned2 m2 calls2 →
        (∀ x ∈ sent2, x ∈ sent ∨
           ∃ r, (x, r) ∈ entries ∧
             ((∃ hg, r = Report.hostGuest hg) ∨ (∃ e, r = Report.error e))) ∧
        (∀ x ∈ erred, x ∈ erred2) ∧ (∀ x ∈ warned, x ∈ warned2) ∧
        (∀ (sk : String) (dl : DLReport), (sk, Report.domainList dl) ∈ entries →
           sk ∈ erred2 ∧ sk ∈ warned2)
  | [], last, sent, erred, warned, m, calls, last2, sent2, erred2, warned2, m2,
      calls2, h => by
    rw [runS5Entries] at h
    cases h
    exact ⟨fun x hx => Or.inl hx, fun x hx => hx, fun x hx => hx,
      fun sk dl hmem => absurd hmem (List.not_mem_nil _)⟩
  | (sk, report) :: rest, last, sent, erred, warned, m, calls, last2, sent2,
      erred2, warned2, m2, calls2, h => by
    cases report with
    | domainList dl =>
      rw [runS5Entries] at h
      have ih := runS5Entries_spec oneshot s5Trace rest last sent (erred ++ [sk])
        (warned ++ [sk]) m calls last2 sent2 erred2 warned2 m2 calls2 h
      refine ⟨fun x hx => ?_, fun x hx => ih.2.1 x (List.mem_append_left _ hx),
        fun x hx => ih.2.2.1 x (List.mem_append_left _ hx), fun sk' dl' hmem => ?_⟩
      · rcases ih.1 x hx with h' | ⟨r, hr, hv⟩
        · exact Or.inl h'
        · exact Or.inr ⟨r, List.mem_cons_of_mem _ hr, hv⟩
      · rcases List.mem_cons.mp hmem with h' | h'
        · injection h' with h1 _
          subst h1
          exact ⟨ih.2.1 sk' (List.mem_append_right _ (List.mem_singleton_self _)),
            ih.2.2.1 sk' (List.mem_append_right _ (List.mem_singleton_self _))⟩
        · exact ih.2.2.2 sk' dl' h'
    | hostGuest hg =>
      rw [runS5Entries] at h
      split at h
      · exact S5Step.noConfusion h
      · exact S5Step.noConfusion h
      next m' c hckn =>
        have ih := runS5Entries_spec oneshot s5Trace rest
          (fun k => if k = sk then some (.sha hg.hash) else last k)
          (sent ++ [sk]) erred warned m' (calls + c) last2 sent2 erred2 warned2
          m2 calls2 h
        refine ⟨fun x hx => ?_, ih.2.1, ih.2.2.1, fun sk' dl' hmem => ?_⟩
        · rcases ih.1 x hx with h' | ⟨r, hr, hv⟩
          · rcases List.mem_append.mp h' with h'' | h''
            · exact Or.inl h''
            · exact Or.inr ⟨Report.hostGuest hg,
                (List.mem_singleton.mp h'') ▸ List.mem_cons_self _ _,
                Or.inl ⟨hg, rfl⟩⟩
          · exact Or.inr ⟨r, List.mem_cons_of_mem _ hr, hv⟩
        · rcases List.mem_cons.mp hmem with h' | h'
          · exact absurd (congrArg Prod.snd h') (by simp)
          · exact ih.2.2.2 sk' dl' h'
      next m' c hckn =>
        have ih := runS5Entries_spec oneshot s5Trace rest last sent (erred ++ [sk])
          warned m' (calls + c) last2 sent2 erred2 warned2 m2 calls2 h
        refine ⟨fun x hx => ?_, fun x hx => ih.2.1 x (List.mem_append_left _ hx),
          ih.2.2.1, fun sk' dl' hmem => ?_⟩
        · rcases ih.1 x hx with h' | ⟨r, hr, hv⟩
          · exact Or.inl h'
          · exact Or.inr ⟨r, List.mem_cons_of_mem _ hr, hv⟩
        · rcases List.mem_cons.mp hmem with h' | h'
          · exact absurd (congrArg Prod.snd h') (by simp)
          · exact ih.2.2.2 sk' dl' h'
    | error e =>
      rw [runS5Entries] at h
      have ih := runS5Entries_spec oneshot s5Trace rest last
        (if oneshot then sent ++ [sk] else sent) erred warned m calls last2 sent2
        erred2 warned2 m2 calls2 h
      refine ⟨fun x hx => ?_, ih.2.1, ih.2.2.1, fun sk' dl' hmem => ?_⟩
      · rcases ih.1 x hx with h' | ⟨r, hr, hv⟩
        · cases oneshot with
          | true =>
            rcases (by simpa using h' : x ∈ sent ∨ x = sk) with h'' | h''
            · exact Or.inl h''
            · exact Or.inr ⟨Report.error e, h'' ▸ List.mem_cons_self _ _,
                Or.inr ⟨e, rfl⟩⟩
          | false => exact Or.inl (by simpa using h')
        · exact Or.inr ⟨r, List.mem_cons_of_mem _ hr, hv⟩
      · rcases List.mem_cons.mp hmem with h' | h'
        · exact absurd (congrArg Prod.snd h') (by simp)
        · exact ih.2.2.2 sk' dl' h'

/-! ## Claims C5 and C6: Satellite-5 policy -/

/-- Observation of a normal Satellite-5 result at one key: the waits
performed, the final `interval_modifier`, the checkin call count, the
sent list and the last-sent entry of the key. -/
def s5Observe (k : String) : S5Result →
    Option (List Nat × Nat × Nat × List String × Option HashVal)
  | .ok o => some (o.waits, o.interval_modifier, o.checkinCalls, o.sourcesSent,
      o.lastReport k)
  | _ => none

/-- Observation of the list-valued state of a normal Satellite-5
result: warned, erred, sent, remaining source keys, stopped. -/
def s5StateView : S5Result →
    Option (List String × List String × List String × List String × Bool)
  | .ok o => some (o.warned, o.sourcesErred, o.sourcesSent, o.sourceKeys, o.stopped)
  | _ => none

set_option maxRecDepth 1000000 in
/-- C5: the Satellite-5 worker never waits inside `_send_data` — in
particular not after a `ManagerThrottleError`. The loop stores
`retry_after` into `interval_modifier` (a dead store: nothing in the
class reads it) and retries the checkin immediately. The second
conjunct runs the failing input: one source whose checkin first
raises `ManagerThrottleError(retry_after=7)` and then succeeds — the
worker performs two back-to-back checkin calls, no wait, and is left
with `interval_modifier = 7`. -/
theorem C5_satellite5_throttle_never_waits :
    (∀ (oneshot : Bool) (sourceKeys : List String)
       (lastReport : String → Option HashVal) (modifier0 : Nat)
       (input : SendInput) (s5Trace : String → List S5Outcome) (o : S5Out),
       s5SendData oneshot sourceKeys lastReport modifier0 input s5Trace = .ok o →
       o.waits = []) ∧
    s5Observe "A" (s5SendData false ["A"] (fun _ => none) 0
        (.dict [("A", .hostGuest ⟨[hypProd], none, none⟩)])
        (fun _ => [.throttle 7, .success])) =
      some ([], 7, 2, ["A"],
        some (.sha (HGAReport.hash ⟨[hypProd], none, none⟩))) := by
  constructor
  · intro oneshot sourceKeys lastReport modifier0 input s5Trace o hrun
    cases input with
    | errorReport =>
      injection hrun with h
      subst h
      rfl
    | dict data =>
      rw [s5SendData] at hrun
      split at hrun
      · injection hrun with h
        subst h
        rfl
      · split at hrun
        · exact S5Result.noConfusion hrun
        · exact S5Result.noConfusion hrun
        · injection hrun with h
          subst h
          rfl
  · decide

theorem C5_witness :
    ∃ o, s5SendData false ["A"] (fun _ => none) 0 SendInput.errorReport
        (fun _ => []) = .ok o ∧ o.waits = [] :=
  ⟨_, rfl, C5_satellite5_throttle_never_waits.1 false ["A"] (fun _ => none) 0
      .errorReport (fun _ => []) _ rfl⟩

/-- C6, counterexample: in one-shot mode a `DomainListReport` source
is warned about and marked erred, but it is NOT dropped from the
active source-key list (pruning removes only `sources_sent`) and the
worker's `_send_data` does not stop even though every configured
source has been dealt with: the Satellite-5 termination check reads
`sources_sent` alone. -/
theorem C6_counterexample :
    s5StateView (s5SendData true ["A"] (fun _ => none) 0
        (.dict [("A", .domainList ⟨[], none⟩)]) (fun _ => [])) =
      some (["A"], ["A"], [], ["A"], false) := by
  rfl

/-- C6, amended: a `DomainListReport` source in one-shot mode is
warned about and marked erred, but stays on the worker's source-key
list (pruning removes sent sources only), and `_send_data` does not
call `stop()` while that source is configured — its termination check
requires every source key to be in `sources_sent`, and erred sources
never get there. (The one-shot worker still exits after the cycle,
because `IntervalThread._run` terminates unconditionally after one
iteration under one-shot.) -/
theorem C6_domain_list_erred_not_dropped (oneshot : Bool)
    (sourceKeys : List String) (lastReport : String → Option HashVal)
    (modifier0 : Nat) (data : List (String × Report))
    (s5Trace : String → List S5Outcome) (o : S5Out) (sk : String) (dl : DLReport)
    (hrun : s5SendData oneshot sourceKeys lastReport modifier0 (.dict data)
        s5Trace = .ok o)
    (hnd : (data.map Prod.fst).Nodup)
    (hsk : data.lookup sk = some (.domainList dl)) :
    sk ∈ o.warned ∧ sk ∈ o.sourcesErred ∧ sk ∉ o.sourcesSent ∧
    (sk ∈ sourceKeys → sk ∈ o.sourceKeys) ∧
    (sk ∈ sourceKeys → o.stopped = false) := by
  have hne : ¬(data.isEmpty = true) := by
    cases data with
    | nil => simp [List.lookup] at hsk
    | cons a l => simp
  rw [s5SendData, if_neg hne] at hrun
  split at hrun
  · exact S5Result.noConfusion hrun
  · exact S5Result.noConfusion hrun
  next last2 sent erred warned m calls hdone =>
    injection hrun with hrun
    subst hrun
    have hmem : (sk, Report.domainList dl) ∈ data := mem_of_lookup data sk _ hsk
    have spec := runS5Entries_spec oneshot s5Trace data lastReport [] [] []
      modifier0 0 last2 sent erred warned m calls hdone
    have hsknot : sk ∉ sent := by
      intro hin
      rcases spec.1 sk hin with h' | ⟨r, hr, hv⟩
      · exact absurd h' (List.not_mem_nil _)
      · have := assoc_value_unique data hnd sk _ _ hr hmem
        rcases hv with ⟨hg, rfl⟩ | ⟨e, rfl⟩
        · exact Report.noConfusion this
        · exact Report.noConfusion this
    have hcont : sent.contains sk = false := by
      cases hc : sent.contains sk with
      | false => rfl
      | true => exact absurd (List.mem_of_elem_eq_true hc) hsknot
    obtain ⟨herr, hwarn⟩ := spec.2.2.2 sk dl hmem
    refine ⟨hwarn, herr, hsknot, fun hsrc => ?_, fun hsrc => ?_⟩
    · show sk ∈ (if oneshot then sourceKeys.filter _ else sourceKeys)
      split
      · exact List.mem_filter.mpr ⟨hsrc, by rw [hcont]; rfl⟩
      · exact hsrc
    · show (oneshot && sourceKeys.all fun k => sent.contains k) = false
      cases oneshot with
      | false => rfl
      | true =>
        rw [Bool.true_and]
        cases hall : sourceKeys.all (fun k => sent.contains k) with
        | false => rfl
        | true =>
          have := List.all_eq_true.mp hall sk hsrc
          rw [hcont] at this
          exact Bool.noConfusion this

theorem C6_witness :
    ∃ o, s5SendData true ["A"] (fun _ => none) 0
        (.dict [("A", .domainList ⟨[], none⟩)]) (fun _ => []) = .ok o ∧
      ("A" ∈ o.warned ∧ "A" ∈ o.sourcesErred ∧ "A" ∉ o.sourcesSent ∧
       ("A" ∈ ["A"] → "A" ∈ o.sourceKeys) ∧
       ("A" ∈ ["A"] → o.stopped = false)) :=
  ⟨_, rfl, C6_domain_list_erred_not_dropped true ["A"] (fun _ => none) 0
      [("A", .domainList ⟨[], none⟩)] (fun _ => []) _ "A" ⟨[], none⟩ rfl
      (by decide) rfl⟩

/-! ## Claim C8: the interval loop's wait step -/

/-- `delta` in whole seconds, as `_run` computes it from a timedelta:
`((days*86400 + seconds) * 10**6 + microseconds) / 10**6` with
Python 2 integer (floor) division. -/
def deltaSeconds (days seconds micros : Nat) : Nat :=
  ((days * 86400 + seconds) * 10 ^ 6 + micros) / 10 ^ 6

/-- `IntervalThread.wait(wait_time)`: `for i in range(wait_time)`,
breaking when the terminate predicate holds, else sleeping one
second. `term i` samples `is_terminated()` at iteration `i` (first
argument counts remaining iterations, second the current index); the
result is the number of one-second sleeps performed. -/
def waitSleeps (term : Nat → Bool) : Nat → Nat → Nat
  | 0, _ => 0
  | n + 1, i => if term i then 0 else waitSleeps term n (i + 1) + 1

/-- What the tail of one `_run` cycle does after `_send_data`. -/
inductive CycleTail where
  | immediateRetry
  | slept (n : Nat)
  deriving DecidableEq, Repr

/-- The post-cycle scheduling decision of `IntervalThread._run`:
`wait_time = self.interval - int(delta_seconds)`; when negative, log
and re-enter the loop immediately; otherwise `self.wait(wait_time)`. -/
def cycleTail (interval : Int) (days seconds micros : Nat) (term : Nat → Bool) :
    CycleTail :=
  let wait_time : Int := interval - (deltaSeconds days seconds micros : Int)
  if wait_time < 0 then .immediateRetry
  else .slept (waitSleeps term wait_time.toNat 0)

/-- The one-second stepping of `wait` sleeps until the deadline or the
first terminated sample, whichever is sooner. -/
theorem waitSleeps_spec (term : Nat → Bool) :
    ∀ n i : Nat,
      waitSleeps term n i ≤ n ∧
      (∀ j < waitSleeps term n i, term (i + j) = false) ∧
      (waitSleeps term n i < n → term (i + waitSleeps term n i) = true)
  | 0, _ => ⟨Nat.le_refl 0, fun j hj => absurd hj (Nat.not_lt_zero j), fun h => absurd h (by omega)⟩
  | n + 1, i => by
    by_cases ht : term i = true
    · refine ⟨?_, ?_, ?_⟩
      · rw [waitSleeps, if_pos ht]; omega
      · intro j hj
        rw [waitSleeps, if_pos ht] at hj
        exact absurd hj (Nat.not_lt_zero j)
      · intro _
        rw [waitSleeps, if_pos ht]
        simpa using ht
    · have ih := waitSleeps_spec term n (i + 1)
      have hw : waitSleeps term (n + 1) i = waitSleeps term n (i + 1) + 1 := by
        rw [waitSleeps, if_neg ht]
      refine ⟨?_, ?_, ?_⟩
      · rw [hw]; omega
      · intro j hj
        rw [hw] at hj
        cases j with
        | zero => simpa using Bool.not_eq_true _ ▸ (by simpa using ht)
        | succ j' =>
          have h := ih.2.1 j' (by omega)
          rw [show i + 1 + j' = i + (j' + 1) from by omega] at h
          exact h
      · intro hlt
        rw [hw] at hlt ⊢
        have h := ih.2.2 (by omega)
        rw [show i + 1 + waitSleeps term n (i + 1) =
          i + (waitSleeps term n (i + 1) + 1) from by omega] at h
        exact h

/-- C8: when the cycle overran (`wait_time < 0`, i.e. the interval is
strictly less than the floored elapsed seconds) the next cycle starts
immediately with no sleeping; otherwise the worker sleeps `wait_time`
seconds in one-second steps, stopping early exactly at the first
terminated sample. -/
theorem C8_run_wait (interval : Int) (days seconds micros : Nat) (term : Nat → Bool) :
    (interval < (deltaSeconds days seconds micros : Int) ↔
       cycleTail interval days seconds micros term = .immediateRetry) ∧
    (∀ n, cycleTail interval days seconds micros term = .slept n →
       n ≤ (interval - (deltaSeconds days seconds micros : Int)).toNat ∧
       (∀ i < n, term i = false) ∧
       (n < (interval - (deltaSeconds days seconds micros : Int)).toNat →
         term n = true)) := by
  have hspec := waitSleeps_spec term
    ((interval - (deltaSeconds days seconds micros : Int)).toNat) 0
  by_cases hneg : interval - (deltaSeconds days seconds micros : Int) < 0
  · refine ⟨⟨fun _ => ?_, fun _ => by omega⟩, fun n hn => ?_⟩
    · simp only [cycleTail]
      rw [if_pos hneg]
    · simp only [cycleTail] at hn
      rw [if_pos hneg] at hn
      exact CycleTail.noConfusion hn
  · refine ⟨⟨fun hlt => absurd (by omega) hneg, fun heq => ?_⟩, fun n hn => ?_⟩
    · simp only [cycleTail] at heq
      rw [if_neg hneg] at heq
      exact CycleTail.noConfusion heq
    · simp only [cycleTail] at hn
      rw [if_neg hneg] at hn
      injection hn with hn
      subst hn
      refine ⟨hspec.1, fun i hi => by simpa using hspec.2.1 i hi,
        fun hlt => by simpa using hspec.2.2 hlt⟩

theorem C8_witness :
    ((2 : Int) < (deltaSeconds 0 5 0 : Int) ↔
       cycleTail 2 0 5 0 (fun _ => false) = .immediateRetry) ∧
    (∀ n, cycleTail 2 0 5 0 (fun _ => false) = .slept n →
       n ≤ ((2 : Int) - (deltaSeconds 0 5 0 : Int)).toNat ∧
       (∀ i < n, (fun _ => false) i = false) ∧
       (n < ((2 : Int) - (deltaSeconds 0 5 0 : Int)).toNat →
         (fun _ => false) n = true)) :=
  C8_run_wait 2 0 5 0 (fun _ => false)

theorem C10_witness :
    ((filterB "h-dev" ["*-dev"] = true ↔ ∃ q ∈ ["*-dev"], patMatches "h-dev" q) ∧
      ((∀ h', reMatch "*-dev" h' = none) →
        filterB "h-dev" ["*-dev"] = fnmatchB (strLower "h-dev") (strLower "*-dev"))) ∧
    filterB "h-dev" ["*-dev"] = fnmatchB (strLower "h-dev") (strLower "*-dev") :=
  ⟨C10_filter_total "h-dev" ["*-dev"] "*-dev",
   (C10_filter_total "h-dev" ["*-dev"] "*-dev").2
     (fun h' => by rw [reMatch]; rfl)⟩

end VirtWho
